import Mathlib

/-!
Verification development for the Ramble experiment-orchestration engine.

This file gives a shallow embedding, in Lean 4, of the parts of the Ramble
source relevant to the expansion engine and experiment pipeline:

* `lib/ramble/ramble/expander.py` — the `Expander` class: the expression
  evaluator `eval_math` and its helpers, and the string template expansion
  `expand_var` / `_partial_expand` / `_fully_expanded`.
* `lib/ramble/ramble/application.py` — `create_experiment_chain`,
  `_inject_commands`, and `_analyze_experiments`.

Modelling conventions:
* Python values are modelled by the inductive `Value`.  Python floats are
  modelled as rationals (`ℚ`); results of float operations that are not
  rational (e.g. fractional powers) are represented by the modelling error
  `PyErr.notModeled`, on which no theorem depends.
* Python exceptions are modelled by the `PyErr` type carried in `Except`.
  `try/except` blocks are modelled by explicit translation of the error
  values that the corresponding `except` clauses would catch.
* Calls into the host runtime or into collaborator modules that are not part
  of the analyzed sources (`ast.parse`, `re` matching, the experiment set's
  `get_var_from_experiment`) are modelled as oracle functions carried in an
  environment structure.
* Recursion that is unbounded in Python (template expansion, the chain
  builder's work stack) is modelled with explicit fuel; running out of fuel
  is the distinguished error `PyErr.fuelExhausted`, which corresponds to
  Python's `RecursionError`/nontermination and is never identified with any
  program behavior.
-/

namespace Ramble

/-- Python runtime values as they occur in the expander: integers, floats
(modelled as rationals), booleans, strings, lists and `None`. -/
inductive Value where
  | vInt (n : ℤ)
  | vFloat (q : ℚ)
  | vBool (b : Bool)
  | vStr (s : String)
  | vList (l : List Value)
  | vNone

/-- Python exceptions (and two modelling artifacts, `notModeled` and
`fuelExhausted`) used as the error component of `Except`. -/
inductive PyErr where
  | typeError
  | keyError
  | indexError
  | valueError
  | zeroDivisionError
  | attributeError
  | syntaxError (msg : String)
  | mathEvaluationError (msg : String)
  | rambleSyntaxError (msg : String)
  | expanderError (msg : String)
  | invalidChainError (msg : String)
  | chainCycleDetectedError (msg : String)
  | notModeled
  | fuelExhausted
  deriving Repr, DecidableEq

/-- Whether an error is an instance of the Python class `ExpanderError`
(`ramble/expander.py` lines 525-548: `MathEvaluationError` and
`RambleSyntaxError` are subclasses of `ExpanderError`). -/
def PyErr.isExpanderErr : PyErr → Bool
  | .mathEvaluationError _ => true
  | .rambleSyntaxError _ => true
  | .expanderError _ => true
  | _ => false

/-- Views a value as a Python `int` (booleans are ints in Python). -/
def asIntV : Value → Option ℤ
  | .vInt n => some n
  | .vBool b => some (if b then 1 else 0)
  | _ => none

/-- Views a value as a Python number (int, float or bool). -/
def asNumV : Value → Option ℚ
  | .vInt n => some (n : ℚ)
  | .vFloat q => some q
  | .vBool b => some (if b then 1 else 0)
  | _ => none

/-- Whether the value is a Python `str` (the `isinstance(x, six.string_types)`
test of the source). -/
def isStrV : Value → Bool
  | .vStr _ => true
  | _ => false

/-- Python truthiness (`bool(x)`), used by `if not val` in `_eval_comp_in`. -/
def pyTruthy : Value → Bool
  | .vInt n => n != 0
  | .vFloat q => q != 0
  | .vBool b => b
  | .vStr s => s != ""
  | .vList l => !l.isEmpty
  | .vNone => false

mutual

/-- Python `==` on values: numeric cross-type equality, elementwise on lists,
`False` (not an error) across incomparable types. -/
def pyEq : Value → Value → Bool
  | a, b =>
    match asNumV a, asNumV b with
    | some q, some r => q == r
    | _, _ =>
      match a, b with
      | .vStr s, .vStr t => s == t
      | .vNone, .vNone => true
      | .vList l, .vList m => pyEqList l m
      | _, _ => false

/-- Elementwise Python `==` on lists. -/
def pyEqList : List Value → List Value → Bool
  | [], [] => true
  | x :: xs, y :: ys => pyEq x y && pyEqList xs ys
  | _, _ => false

end

mutual

/-- Python ordering comparison on values (`<`, `<=`, `>`, `>=`): numeric
cross-type, lexicographic on strings and lists, `TypeError` otherwise. -/
def pyOrd : Value → Value → Except PyErr Ordering
  | a, b =>
    match asNumV a, asNumV b with
    | some q, some r => .ok (compare q r)
    | _, _ =>
      match a, b with
      | .vStr s, .vStr t => .ok (compare s t)
      | .vList l, .vList m => pyOrdList l m
      | _, _ => .error .typeError

/-- Python lexicographic ordering of lists: find the first index whose
elements are not `==`-equal, compare there; otherwise compare lengths. -/
def pyOrdList : List Value → List Value → Except PyErr Ordering
  | [], [] => .ok .eq
  | [], _ :: _ => .ok .lt
  | _ :: _, [] => .ok .gt
  | x :: xs, y :: ys =>
    if pyEq x y then pyOrdList xs ys else pyOrd x y

end

/-- `operator.add`: numeric addition with int/float promotion, concatenation
of strings and of lists, `TypeError` otherwise. -/
def pyAdd (a b : Value) : Except PyErr Value :=
  match asIntV a, asIntV b with
  | some m, some n => .ok (.vInt (m + n))
  | _, _ =>
    match asNumV a, asNumV b with
    | some q, some r => .ok (.vFloat (q + r))
    | _, _ =>
      match a, b with
      | .vStr s, .vStr t => .ok (.vStr (s ++ t))
      | .vList l, .vList m => .ok (.vList (l ++ m))
      | _, _ => .error .typeError

/-- `operator.sub`: numeric subtraction with int/float promotion. -/
def pySub (a b : Value) : Except PyErr Value :=
  match asIntV a, asIntV b with
  | some m, some n => .ok (.vInt (m - n))
  | _, _ =>
    match asNumV a, asNumV b with
    | some q, some r => .ok (.vFloat (q - r))
    | _, _ => .error .typeError

/-- Repetition `seq * n` for Python sequence-by-int multiplication. -/
def seqRepeat {α : Type} (l : List α) (n : ℤ) : List α :=
  (List.range n.toNat).foldl (fun acc _ => acc ++ l) []

/-- `operator.mul`: numeric multiplication, plus Python's sequence
repetition for `str * int` and `list * int`. -/
def pyMul (a b : Value) : Except PyErr Value :=
  match asIntV a, asIntV b with
  | some m, some n => .ok (.vInt (m * n))
  | _, _ =>
    match asNumV a, asNumV b with
    | some q, some r => .ok (.vFloat (q * r))
    | _, _ =>
      match a, b with
      | .vStr s, .vInt n => .ok (.vStr (String.join (seqRepeat [s] n)))
      | .vInt n, .vStr s => .ok (.vStr (String.join (seqRepeat [s] n)))
      | .vList l, .vInt n => .ok (.vList (seqRepeat l n))
      | .vInt n, .vList l => .ok (.vList (seqRepeat l n))
      | _, _ => .error .typeError

/-- `operator.truediv`: true division, always producing a float on numbers;
division by zero raises `ZeroDivisionError` (which `_eval_binary_ops` does
not catch). -/
def pyDiv (a b : Value) : Except PyErr Value :=
  match asNumV a, asNumV b with
  | some q, some r =>
    if r = 0 then .error .zeroDivisionError else .ok (.vFloat (q / r))
  | _, _ => .error .typeError

/-- `operator.pow`: `int ** nonnegative int` is an int, other rational cases
are floats; a fractional exponent would produce an irrational float and is
outside the rational model (`notModeled`). -/
def pyPow (a b : Value) : Except PyErr Value :=
  match asIntV a, asIntV b with
  | some m, some e =>
    if 0 ≤ e then .ok (.vInt (m ^ e.toNat))
    else if m = 0 then .error .zeroDivisionError
    else .ok (.vFloat ((m : ℚ) ^ e))
  | _, _ =>
    match asNumV a, asNumV b with
    | some q, some r =>
      if r.den = 1 then
        if q = 0 ∧ r.num < 0 then .error .zeroDivisionError
        else .ok (.vFloat (q ^ r.num))
      else .error .notModeled
    | _, _ => .error .typeError

/-- `operator.xor` (the `^` operator): bitwise xor, defined on Python ints
and bools only; floats raise `TypeError`. -/
def pyXor (a b : Value) : Except PyErr Value :=
  match a, b with
  | .vBool x, .vBool y => .ok (.vBool (xor x y))
  | _, _ =>
    match asIntV a, asIntV b with
    | some m, some n => .ok (.vInt (Int.xor m n))
    | _, _ => .error .typeError

/-- `operator.and_` (bitwise `&`), the operator bound to `ast.And` in
`supported_math_operators`. -/
def pyBitAnd (a b : Value) : Except PyErr Value :=
  match a, b with
  | .vBool x, .vBool y => .ok (.vBool (x && y))
  | _, _ =>
    match asIntV a, asIntV b with
    | some m, some n => .ok (.vInt (Int.land m n))
    | _, _ => .error .typeError

/-- `operator.or_` (bitwise `|`), the operator bound to `ast.Or`. -/
def pyBitOr (a b : Value) : Except PyErr Value :=
  match a, b with
  | .vBool x, .vBool y => .ok (.vBool (x || y))
  | _, _ =>
    match asIntV a, asIntV b with
    | some m, some n => .ok (.vInt (Int.lor m n))
    | _, _ => .error .typeError

/-- `operator.neg`: unary negation; `-True` is the int `-1` in Python. -/
def pyNeg (a : Value) : Except PyErr Value :=
  match a with
  | .vInt n => .ok (.vInt (-n))
  | .vBool b => .ok (.vInt (-(if b then 1 else 0)))
  | .vFloat q => .ok (.vFloat (-q))
  | _ => .error .typeError

/-- The binary operator of an `ast.BinOp` node.  `otherBin` stands for any
operator absent from `supported_math_operators` (e.g. `%`, `//`), whose
lookup raises `KeyError`. -/
inductive BinOpKind where
  | add | sub | mult | div | pow | bitXor | otherBin

/-- The operator of an `ast.UnaryOp` node; only `ast.USub` is in the
operator table. -/
inductive UnaryOpKind where
  | uSub | otherUnary

/-- The operator of an `ast.Compare` node.  `inOp` is `ast.In`; `otherCmp`
stands for comparison operators absent from the table (`not in`, `is`...). -/
inductive CmpOpKind where
  | cEq | cNotEq | cGt | cGtE | cLt | cLtE | inOp | otherCmp
  deriving DecidableEq

/-- The operator of an `ast.BoolOp` node (`and` / `or`). -/
inductive BoolOpKind where
  | andOp | orOp

/-- The Python expression AST nodes dispatched by `Expander.eval_math`
(`expander.py` lines 350-378).  `other` stands for any node kind without an
`isinstance` branch; its payload stands for the node-type text used in the
error message.  For `call`, `funcIsName` records whether `node.func` is an
`ast.Name` (otherwise accessing `node.func.id` raises `AttributeError`) and
`hasKeywords` whether the call has keyword arguments. -/
inductive AstNode where
  | num (v : Value)
  | constant (v : Value)
  | name (id : String)
  | attribute (value : AstNode) (attr : String)
  | compare (left : AstNode) (ops : List CmpOpKind) (comparators : List AstNode)
  | boolOp (op : BoolOpKind) (values : List AstNode)
  | binOp (left : AstNode) (op : BinOpKind) (right : AstNode)
  | unaryOp (op : UnaryOpKind) (operand : AstNode)
  | call (funcIsName : Bool) (funcId : String) (args : List AstNode) (hasKeywords : Bool)
  | other (nodeType : String)

/-- Oracles for host-runtime and collaborator calls made by the expander:
`astParse` models `ast.parse(..., mode='eval')` (an error is the host
`SyntaxError`), and `getVarFromExperiment` models the experiment set's
`get_var_from_experiment` (not part of the analyzed sources). -/
structure ExpEnv where
  astParse : String → Except Unit AstNode
  getVarFromExperiment : Value → String → Value

/-- The mutable attributes of the `Expander` object that `eval_math` could
touch: the field `vars` models `self._variables`.  It is threaded through
the evaluator so that (non-)mutation is an explicit property, not a typing
accident.  (`variables` is a reserved word in Lean, hence the short name.) -/
structure ExpState where
  vars : List (String × Value)

/-- `Expander._ast_attr` (lines 398-408): joins an `Attribute`/`Name` chain
into a dotted path, raising `RambleSyntaxError` for any other base node. -/
def astAttr : AstNode → String → Except PyErr String
  | AstNode.attribute v a, attr =>
    match astAttr v a with
    | Except.ok base => Except.ok (base ++ "." ++ attr)
    | Except.error e => Except.error e
  | AstNode.name id, attr => Except.ok (id ++ "." ++ attr)
  | _, _ =>
    Except.error (PyErr.rambleSyntaxError "Syntax error while processing attribute node")

/-- Lookup in `supported_math_operators` for comparison operators; a missing
entry is a `KeyError`.  `ast.In` is not in the table (it is intercepted
before lookup when it is the only operator). -/
def cmpLookup : CmpOpKind → Except PyErr (Value → Value → Except PyErr Bool)
  | .cEq => .ok (fun a b => .ok (pyEq a b))
  | .cNotEq => .ok (fun a b => .ok (!pyEq a b))
  | .cGt => .ok (fun a b => (pyOrd a b).map (fun o => o == Ordering.gt))
  | .cGtE => .ok (fun a b => (pyOrd a b).map (fun o => o != Ordering.lt))
  | .cLt => .ok (fun a b => (pyOrd a b).map (fun o => o == Ordering.lt))
  | .cLtE => .ok (fun a b => (pyOrd a b).map (fun o => o != Ordering.gt))
  | .inOp => .error .keyError
  | .otherCmp => .error .keyError

/-- Lookup in `supported_math_operators` for binary operators. -/
def binLookup : BinOpKind → Except PyErr (Value → Value → Except PyErr Value)
  | .add => .ok pyAdd
  | .sub => .ok pySub
  | .mult => .ok pyMul
  | .div => .ok pyDiv
  | .pow => .ok pyPow
  | .bitXor => .ok pyXor
  | .otherBin => .error .keyError

/-- Error translation performed by the `try/except` of `_eval_comparisons`
(lines 466-469): `TypeError` and `KeyError` become `SyntaxError`s, every
other exception propagates unchanged. -/
def catchCmp (e : PyErr) : PyErr :=
  match e with
  | .typeError => .syntaxError "Unsupported operand type in binary comparison operator"
  | .keyError => .syntaxError "Unsupported binary comparison operator"
  | e => e

/-- Error translation of the `try/except` of `_eval_binary_ops`. -/
def catchBin (e : PyErr) : PyErr :=
  match e with
  | .typeError => .syntaxError "Unsupported operand type in binary operator"
  | .keyError => .syntaxError "Unsupported binary operator"
  | e => e

/-- Error translation of the `try/except` of `_eval_bool_op`. -/
def catchBool (e : PyErr) : PyErr :=
  match e with
  | .typeError => .syntaxError "Unsupported operand type in boolean operator"
  | .keyError => .syntaxError "Unsupported boolean operator"
  | e => e

/-- Error translation of the `try/except` of `_eval_unary_ops`. -/
def catchUnary (e : PyErr) : PyErr :=
  match e with
  | .typeError => .syntaxError "Unsupported operand type in unary operator"
  | .keyError => .syntaxError "Unsupported unary operator"
  | e => e

/-- `list(range(*args))` as called by `_eval_function_call`: Python `range`
semantics over int arguments; non-int arguments raise `TypeError`, a zero
step raises `ValueError` (neither is caught inside `eval_math`). -/
def pyRange (args : List Value) : Except PyErr Value :=
  match args.mapM asIntV with
  | none => .error .typeError
  | some ints =>
    match ints with
    | [b] => .ok (.vList ((List.range b.toNat).map (fun i => .vInt i)))
    | [a, b] => .ok (.vList ((List.range (b - a).toNat).map (fun i => .vInt (a + i))))
    | [a, b, s] =>
      if s = 0 then .error .valueError
      else
        let steps : ℕ :=
          if 0 < s then ((b - a + s - 1) / s).toNat else ((a - b - s - 1) / (-s)).toNat
        .ok (.vList ((List.range steps).map (fun i => .vInt (a + i * s))))
    | _ => .error .typeError

/-- Rendering of the rational model of a Python float by `str()`.  Integral
values print as `n.0`; for non-integral values Python's decimal float
formatting is approximated by a `num/den` rendering (no theorem in this file
depends on the non-integral case). -/
def floatRepr (q : ℚ) : String :=
  if q.den = 1 then toString q.num ++ ".0"
  else toString q.num ++ "/" ++ toString q.den

mutual

/-- Python `str()` on the modelled values. -/
def pyStr : Value → String
  | .vStr s => s
  | .vInt n => toString n
  | .vBool b => cond b "True" "False"
  | .vNone => "None"
  | .vFloat q => floatRepr q
  | .vList l => "[" ++ String.intercalate ", " (pyReprList l) ++ "]"

/-- The element renderings of `str()` on a list (elements use `repr()`). -/
def pyReprList : List Value → List String
  | [] => []
  | v :: rest => pyReprV v :: pyReprList rest

/-- Python `repr()` on the modelled values (string escaping inside `repr` is
not modelled beyond the surrounding quotes). -/
def pyReprV : Value → String
  | .vStr s => "'" ++ s ++ "'"
  | .vInt n => toString n
  | .vBool b => cond b "True" "False"
  | .vNone => "None"
  | .vFloat q => floatRepr q
  | .vList l => "[" ++ String.intercalate ", " (pyReprList l) ++ "]"

end

mutual

/-- `Expander.eval_math` (`expander.py` lines 350-378) with its helper
methods `_eval_comparisons`, `_eval_comp_in`, `_eval_bool_op`,
`_eval_binary_ops`, `_eval_unary_ops`, `_eval_function_call`, `_ast_num`,
`_ast_constant`, `_ast_name` and `_ast_attr` inlined at their call sites.
The expander state is threaded explicitly; the `try/except` clauses of the
helpers are modelled by the `catch*` error translations applied to every
error that escapes the corresponding `try` block.  The `fuel` argument
bounds recursion depth (Python's recursion is unbounded up to
`RecursionError`); with `fuel` at least the size of the node the result is
fuel-independent. -/
def evalMath : ℕ → ExpEnv → ExpState → AstNode → Except PyErr Value × ExpState
  | 0, _, st, _ => (.error .fuelExhausted, st)
  | fuel + 1, env, st, n =>
    match n with
    | .num v => (.ok v, st)
    | .constant v => (.ok v, st)
    | .name id => (.ok (.vStr id), st)
    | .attribute v a =>
      (match astAttr v a with
       | .ok s => .ok (.vStr s)
       | .error e => .error e, st)
    | .compare left ops comparators =>
      if ops = [CmpOpKind.inOp] then
        -- `_eval_comp_in` (lines 471-489), reached before the `try` of
        -- `_eval_comparisons`, so its errors are not translated.
        match left with
        | .name varName =>
          match comparators with
          | [] => (.error .indexError, st)
          | c :: _ =>
            match c with
            | .attribute _ _ =>
              let r := evalMath fuel env st c
              (match r.1 with
               | .error e => .error e
               | .ok ns =>
                 let val := env.getVarFromExperiment ns ("\x7b" ++ varName ++ "\x7d")
                 if !pyTruthy val then
                   .error (.rambleSyntaxError (pyStr ns ++ " does not exist in: \"" ++
                     varName ++ " in " ++ pyStr ns ++ "\""))
                 else .ok val, r.2)
            | _ =>
              (.error (.rambleSyntaxError "Syntax error while processing compare node"), st)
        | _ => (.error (.rambleSyntaxError "Syntax error while processing compare node"), st)
      else
        -- `_eval_comparisons` (lines 447-469).
        let l := evalMath fuel env st left
        match l.1 with
        | .error e => (.error (catchCmp e), l.2)
        | .ok lv =>
          match ops with
          | [] => (.error .indexError, l.2)
          | op0 :: _ =>
            match cmpLookup op0 with
            | .error e => (.error (catchCmp e), l.2)
            | .ok f =>
              match comparators with
              | [] => (.error .indexError, l.2)
              | c0 :: _ =>
                let r := evalMath fuel env l.2 c0
                match r.1 with
                | .error e => (.error (catchCmp e), r.2)
                | .ok rv =>
                  match f lv rv with
                  | .error e => (.error (catchCmp e), r.2)
                  | .ok b =>
                    -- Line 458: `zip(node.ops, node.comparators)[1:]` — a
                    -- `zip` object is not subscriptable in Python 3, so
                    -- every chained comparison raises `TypeError` here,
                    -- which `except TypeError` turns into `SyntaxError`.
                    if ops.length > 1 then (.error (catchCmp .typeError), r.2)
                    else (.ok (.vBool b), r.2)
    | .boolOp op values =>
      let f := match op with | .andOp => pyBitAnd | .orOp => pyBitOr
      match values with
      | [] => (.error .indexError, st)
      | v0 :: rest =>
        let r := evalMath fuel env st v0
        match r.1 with
        | .error e => (.error (catchBool e), r.2)
        | .ok acc =>
          let fr := evalBoolFold fuel env r.2 f acc rest
          match fr.1 with
          | .error e => (.error (catchBool e), fr.2)
          | .ok res => (.ok res, fr.2)
    | .binOp left op right =>
      let l := evalMath fuel env st left
      match l.1 with
      | .error e => (.error (catchBin e), l.2)
      | .ok lv =>
        let r := evalMath fuel env l.2 right
        match r.1 with
        | .error e => (.error (catchBin e), r.2)
        | .ok rv =>
          match binLookup op with
          | .error e => (.error (catchBin e), r.2)
          | .ok f =>
            if isStrV lv || isStrV rv then
              (.error (.syntaxError "Unsupported operand type in binary operator"), r.2)
            else
              match f lv rv with
              | .error e => (.error (catchBin e), r.2)
              | .ok v => (.ok v, r.2)
    | .unaryOp op operand =>
      let r := evalMath fuel env st operand
      match r.1 with
      | .error e => (.error (catchUnary e), r.2)
      | .ok v =>
        if isStrV v then
          (.error (.syntaxError "Unsupported operand type in unary operator"), r.2)
        else
          match op with
          | .uSub =>
            match pyNeg v with
            | .error e => (.error (catchUnary e), r.2)
            | .ok nv => (.ok nv, r.2)
          | .otherUnary => (.error (catchUnary .keyError), r.2)
    | .call funcIsName funcId args hasKw =>
      let r := evalArgs fuel env st args
      match r.1 with
      | .error e => (.error e, r.2)
      | .ok argv =>
        if hasKw then
          -- `eval_math(kw.arg)` is called on a `str` object, which matches
          -- no `isinstance` branch and raises `MathEvaluationError`.
          (.error (.mathEvaluationError "Unsupported math AST node class str"), r.2)
        else if !funcIsName then (.error .attributeError, r.2)
        else if funcId = "range" then (pyRange argv, r.2)
        else (.ok .vNone, r.2)
    | .other t => (.error (.mathEvaluationError ("Unsupported math AST node " ++ t)), st)

/-- The argument-evaluation loop of `_eval_function_call`. -/
def evalArgs : ℕ → ExpEnv → ExpState → List AstNode → Except PyErr (List Value) × ExpState
  | 0, _, st, _ => (.error .fuelExhausted, st)
  | fuel + 1, env, st, l =>
    match l with
    | [] => (.ok [], st)
    | a :: rest =>
      let r := evalMath fuel env st a
      match r.1 with
      | .error e => (.error e, r.2)
      | .ok v =>
        let rr := evalArgs fuel env r.2 rest
        match rr.1 with
        | .error e => (.error e, rr.2)
        | .ok vs => (.ok (v :: vs), rr.2)

/-- The accumulation loop of `_eval_bool_op` over `node.values[1:]`. -/
def evalBoolFold : ℕ → ExpEnv → ExpState →
    (Value → Value → Except PyErr Value) → Value →
    List AstNode → Except PyErr Value × ExpState
  | 0, _, st, _, _, _ => (.error .fuelExhausted, st)
  | fuel + 1, env, st, f, acc, l =>
    match l with
    | [] => (.ok acc, st)
    | v :: rest =>
      let r := evalMath fuel env st v
      match r.1 with
      | .error e => (.error e, r.2)
      | .ok rv =>
        match f acc rv with
        | .error e => (.error e, r.2)
        | .ok acc2 => evalBoolFold fuel env r.2 f acc2 rest

end


/-! ### The string template expander -/

/-- The left brace character (written via its code point, `0x7b`). -/
def lbraceC : Char := '\x7b'

/-- The right brace character (written via its code point, `0x7d`). -/
def rbraceC : Char := '\x7d'

/-- A fragment of a format string as produced by `string.Formatter().parse`:
literal text, or a replacement field with its field name and format spec.
(A `!conversion` suffix of the field name is split off and dropped; Ramble
templates use neither conversions nor format specs.) -/
inductive Frag where
  | lit (s : String)
  | field (name : String) (spec : String)

/-- Builds a replacement field from the raw characters between `{` and `}`:
the field name runs to the first `!` or `:`, the format spec follows the
first `:`. -/
def mkField (acc : List Char) : Frag :=
  let nameCs := acc.takeWhile (fun c => c != '!' && c != ':')
  let specCs := (acc.dropWhile (fun c => c != ':')).drop 1
  Frag.field (String.mk nameCs) (String.mk specCs)

mutual

/-- The format-string scanner of `string.Formatter().parse`: `{{` and `}}`
are brace escapes, `{...}` opens a replacement field, a lone `}` raises
`ValueError` (as does an unterminated or nested `{`). -/
def scanFmt : List Char → Except PyErr (List Frag)
  | [] => .ok []
  | [c] =>
    if c == lbraceC || c == rbraceC then .error .valueError
    else .ok [Frag.lit (String.singleton c)]
  | c :: c2 :: rest =>
    if c == lbraceC then
      if c2 == lbraceC then
        (scanFmt rest).map (fun fs => Frag.lit (String.singleton lbraceC) :: fs)
      else scanField [] (c2 :: rest)
    else if c == rbraceC then
      if c2 == rbraceC then
        (scanFmt rest).map (fun fs => Frag.lit (String.singleton rbraceC) :: fs)
      else .error .valueError
    else (scanFmt (c2 :: rest)).map (fun fs => Frag.lit (String.singleton c) :: fs)

/-- Scans a replacement field up to its closing `}`; end of string or a
nested `{` raise `ValueError`. -/
def scanField (acc : List Char) : List Char → Except PyErr (List Frag)
  | [] => .error .valueError
  | c :: rest =>
    if c == rbraceC then (scanFmt rest).map (fun fs => mkField acc :: fs)
    else if c == lbraceC then .error .valueError
    else scanField (acc ++ [c]) rest

end

/-- The nonempty field names of a parsed template — what the generator
`_all_keywords` (`expander.py` lines 247-259) yields (`if keyword[1]:`
skips empty names). -/
def fragKeywords (frags : List Frag) : List String :=
  frags.filterMap (fun f =>
    match f with
    | .field nm _ => if nm = "" then none else some nm
    | .lit _ => none)

/-- `Expander._fully_expanded` (lines 261-272) extended to arbitrary values
as used by `_partial_expand`: non-strings have no keywords; for strings the
template is parsed (a parse error propagates, as it does from the generator
in Python). -/
def fullyExpandedV : Value → Except PyErr Bool
  | .vStr s => (scanFmt s.data).map (fun frags => (fragKeywords frags).isEmpty)
  | _ => .ok true

/-- The keywords of a value, `[]` when it is not a string or does not parse
(used only where the value is already known to parse). -/
def valKeywords : Value → List String
  | .vStr s =>
    match scanFmt s.data with
    | .ok frags => fragKeywords frags
    | .error _ => []
  | _ => []

/-- Ordered dict update, preserving Python dict insertion order. -/
def dictUpsert {α : Type} (d : List (String × α)) (k : String) (v : α) :
    List (String × α) :=
  if d.any (fun p => p.1 == k) then d.map (fun p => if p.1 == k then (k, v) else p)
  else d ++ [(k, v)]

/-- Ordered dict lookup. -/
def dictGet {α : Type} (d : List (String × α)) (k : String) : Option α :=
  (d.find? (fun p => p.1 == k)).map (fun p => p.2)

/-- Numeric value of a digit string (for manual positional fields). -/
def digitsToNat (cs : List Char) : ℕ :=
  cs.foldl (fun acc c => acc * 10 + (c.toNat - 48)) 0

/-- The rendering loop of `string.Formatter().vformat` over parsed
fragments, with the `ExpansionDict` lookup semantics (`expander.py` lines
31-33: a missing key renders as `{key}`).  `ai` is the auto-numbering
index, `ua`/`um` record whether automatic/manual numbering was used
(mixing them raises `ValueError`).  A dotted field name performs attribute
access on the value, which in the expander's use raises `AttributeError`;
`[...]` indexing is outside the model (`notModeled`, exercised by no
theorem).  A nonempty format spec is rendered as plain `str()` (Ramble
templates carry no format specs). -/
def vformatFrags (args : List String) (kwargs : List (String × Value)) :
    List Frag → ℕ → Bool → Bool → String → Except PyErr String
  | [], _, _, _, out => .ok out
  | .lit s :: rest, ai, ua, um, out => vformatFrags args kwargs rest ai ua um (out ++ s)
  | .field nm _ :: rest, ai, ua, um, out =>
    if nm = "" then
      if um then .error .valueError
      else
        match args.get? ai with
        | none => .error .indexError
        | some v => vformatFrags args kwargs rest (ai + 1) true um (out ++ v)
    else if nm.data.all Char.isDigit then
      if ua then .error .valueError
      else
        match args.get? (digitsToNat nm.data) with
        | none => .error .indexError
        | some v => vformatFrags args kwargs rest ai ua true (out ++ v)
    else
      let baseCs := nm.data.takeWhile (fun c => c != '.' && !(c == lbraceC) && c != '[')
      let restCs := nm.data.drop baseCs.length
      let v :=
        match dictGet kwargs (String.mk baseCs) with
        | some v => v
        | none => Value.vStr ("\x7b" ++ String.mk baseCs ++ "\x7d")
      if restCs = [] then vformatFrags args kwargs rest ai ua um (out ++ pyStr v)
      else
        match restCs.head? with
        | some c => if c == '.' then .error .attributeError else .error .notModeled
        | none => .error .notModeled

/-- The first loop of `_partial_expand` (lines 287-297): builds `exp_dict`
(recursively expanding bound placeholders through the supplied continuation
`pe`, which stands for `self._partial_expand(expansion_vars, ...)` with
default passthrough) and `exp_positional`. -/
def buildExpDict (expVars : List (String × Value))
    (pe : Value → Except PyErr Value) :
    List Frag → List (String × Value) → List String →
    Except PyErr (List (String × Value) × List String)
  | [], d, pos => .ok (d, pos)
  | Frag.lit _ :: rest, d, pos => buildExpDict expVars pe rest d pos
  | Frag.field nm _ :: rest, d, pos =>
    if nm ≠ "" then
      match dictGet expVars nm with
      | some v =>
        match pe v with
        | .error e => .error e
        | .ok ev => buildExpDict expVars pe rest (dictUpsert d nm ev) pos
      | none => buildExpDict expVars pe rest d pos
    else buildExpDict expVars pe rest d (pos ++ ["\x7b\x7d"])

/-- The second loop of `_partial_expand` (lines 299-315): for each
`exp_dict` entry, a fully-expanded value is evaluated as math (keeping the
entry on a recoverable `MathEvaluationError`/`SyntaxError`, propagating any
other error); an unexpanded value contributes `{kw}` passthrough entries
when passthrough is allowed (and is only logged otherwise). -/
def evalDictLoop (env : ExpEnv) (selfSt : ExpState) (evalFuel : ℕ) (allowPass : Bool) :
    List (String × Value) → List (String × Value) → List (String × Value) →
    Except PyErr (List (String × Value) × List (String × Value))
  | [], dAcc, pv => .ok (dAcc, pv)
  | (kw, val) :: rest, dAcc, pv =>
    match fullyExpandedV val with
    | .error e => .error e
    | .ok true =>
      match env.astParse (pyStr val) with
      | .error _ => evalDictLoop env selfSt evalFuel allowPass rest (dAcc ++ [(kw, val)]) pv
      | .ok node =>
        match (evalMath evalFuel env selfSt node).1 with
        | .ok ev => evalDictLoop env selfSt evalFuel allowPass rest (dAcc ++ [(kw, ev)]) pv
        | .error (.mathEvaluationError _) =>
          evalDictLoop env selfSt evalFuel allowPass rest (dAcc ++ [(kw, val)]) pv
        | .error (.syntaxError _) =>
          evalDictLoop env selfSt evalFuel allowPass rest (dAcc ++ [(kw, val)]) pv
        | .error e => .error e
    | .ok false =>
      if !allowPass then evalDictLoop env selfSt evalFuel allowPass rest (dAcc ++ [(kw, val)]) pv
      else
        let pv2 := (valKeywords val).foldl
          (fun d kw2 => dictUpsert d kw2 (Value.vStr ("\x7b" ++ kw2 ++ "\x7d"))) pv
        evalDictLoop env selfSt evalFuel allowPass rest (dAcc ++ [(kw, val)]) pv2

/-- `Expander._partial_expand` (`expander.py` lines 274-348).  `selfSt` is
the expander's own `_variables` state (used by `eval_math`), `expVars` the
`expansion_vars` argument.  The fuel bounds the recursive expansion of
bound values (unbounded in Python up to `RecursionError`). -/
def partExpand (env : ExpEnv) (selfSt : ExpState) :
    ℕ → List (String × Value) → Value → Bool → Except PyErr Value
  | 0, _, _, _ => .error .fuelExhausted
  | fuel + 1, expVars, inVal, allowPass =>
    match inVal with
    | .vStr s =>
      match scanFmt s.data with
      | .error e => .error e
      | .ok frags =>
        match buildExpDict expVars
            (fun v => partExpand env selfSt fuel expVars v true) frags [] [] with
        | .error e => .error e
        | .ok (d, pos) =>
          match evalDictLoop env selfSt (fuel + 1) allowPass d [] [] with
          | .error e => .error e
          | .ok (d2, pv) =>
            let dFinal := pv.foldl (fun dd p => dictUpsert dd p.1 p.2) d2
            match vformatFrags pos dFinal frags 0 false false "" with
            | .ok out => .ok (.vStr out)
            | .error .indexError =>
              if allowPass then .ok (.vStr s)
              else .error (.rambleSyntaxError
                "Error occurred while parsing an expansion string.")
            | .error .keyError =>
              .error (.rambleSyntaxError
                "Expansion failed: contains an invalid variable name")
            | .error .valueError => .ok (.vStr s)
            | .error .attributeError =>
              .error (.rambleSyntaxError
                "Expansion failed: variable names cannot contain decimals.")
            | .error e => .error e
    | v => .ok v

/-- Python `str.lstrip()`: removes leading whitespace (the Lean whitespace
predicate approximates Python's). -/
def lstrip (s : String) : String :=
  String.mk (s.data.dropWhile Char.isWhitespace)

/-- `Expander.expand_var` (`expander.py` lines 204-239): merge
`extra_vars` over a copy of `_variables` when nonempty (`if extra_vars:`),
partially expand, then — when the result is fully expanded — try to
evaluate it as math (`MathEvaluationError` and `SyntaxError` are recovered,
other errors propagate); when it is not fully expanded and passthrough is
disallowed, raise `ExpanderError`; finally return `str(...).lstrip()`. -/
def expandVar (env : ExpEnv) (fuel : ℕ) (selfVars : List (String × Value))
    (extraVars : Option (List (String × Value))) (var : Value) (allowPass : Bool) :
    Except PyErr String :=
  match partExpand env ⟨selfVars⟩ fuel
      (match extraVars with
       | some ev =>
         if ev.isEmpty then selfVars
         else ev.foldl (fun d p => dictUpsert d p.1 p.2) selfVars
       | none => selfVars)
      (.vStr (pyStr var)) allowPass with
  | .error e => .error e
  | .ok expanded =>
    match fullyExpandedV expanded with
    | .error e => .error e
    | .ok true =>
      match env.astParse (pyStr expanded) with
      | .error _ => .ok (lstrip (pyStr expanded))
      | .ok node =>
        match (evalMath fuel env ⟨selfVars⟩ node).1 with
        | .ok ev => .ok (lstrip (pyStr ev))
        | .error (.mathEvaluationError _) => .ok (lstrip (pyStr expanded))
        | .error (.syntaxError _) => .ok (lstrip (pyStr expanded))
        | .error e => .error e
    | .ok false =>
      if !allowPass then
        .error (.expanderError ("Expander was unable to fully expand \"" ++ pyStr var ++
          "\", and is not allowed to passthrough undefined variables."))
      else .ok (lstrip (pyStr expanded))

/-- A concrete oracle environment: the host parser rejects every string and
the experiment set is empty (every lookup yields `None`). -/
def envEmpty : ExpEnv :=
  { astParse := fun _ => .error ()
    getVarFromExperiment := fun _ _ => .vNone }

/-- A concrete expander state with no variable bindings. -/
def stEmpty : ExpState := { vars := [] }


/-- An oracle environment whose experiment set resolves every lookup to the
empty string: the experiment exists but the variable expands to `""`. -/
def envEmptyVal : ExpEnv :=
  { astParse := fun _ => .error ()
    getVarFromExperiment := fun _ _ => .vStr "" }


/-- A character is neither `{` nor `}`. -/
def nonBrace (c : Char) : Bool := !(c == lbraceC) && !(c == rbraceC)

/-- The string contains no brace characters at all. -/
def braceFreeStr (s : String) : Bool := s.data.all nonBrace

/-- Literal single-character fragments of a brace-free character list. -/
def litFrags (cs : List Char) : List Frag :=
  cs.map (fun c => Frag.lit (String.singleton c))

/-- The top-level math hook of `expand_var` (lines 224-232) as a standalone
function: parse and evaluate a fully-expanded value as an expression,
recovering from `MathEvaluationError` and `SyntaxError`, propagating any
other evaluation error. -/
def mathHook (env : ExpEnv) (fuel : ℕ) (selfVars : List (String × Value))
    (v : Value) : Except PyErr Value :=
  match env.astParse (pyStr v) with
  | .error _ => .ok v
  | .ok node =>
    match (evalMath fuel env ⟨selfVars⟩ node).1 with
    | .ok ev => .ok ev
    | .error (.mathEvaluationError _) => .ok v
    | .error (.syntaxError _) => .ok v
    | .error e => .error e

/-- A parse oracle that behaves like `ast.parse` on the single input
`"2+3"` (and rejects everything else), mirroring the host parser at the
counterexample input. -/
def envMath : ExpEnv :=
  { astParse := fun s =>
      if s = "2+3" then .ok (.binOp (.num (.vInt 2)) .add (.num (.vInt 3)))
      else .error ()
    getVarFromExperiment := fun _ _ => .vNone }

mutual

/-- A value is brace-free: its strings (recursively) contain no brace
characters, so its `str()` rendering introduces no placeholders. -/
def valueBF : Value → Bool
  | .vStr s => braceFreeStr s
  | .vList l => valueBFList l
  | _ => true

/-- All values of a list are brace-free. -/
def valueBFList : List Value → Bool
  | [] => true
  | v :: rest => valueBF v && valueBFList rest

end

mutual

/-- An AST node is brace-free: every embedded constant, identifier and
attribute name contains no brace characters (as holds for any AST that
`ast.parse` produces from a fully-expanded source string). -/
def astBF : AstNode → Bool
  | .num v => valueBF v
  | .constant v => valueBF v
  | .name id => braceFreeStr id
  | .attribute v a => astBF v && braceFreeStr a
  | .compare l _ cs => astBF l && astBFList cs
  | .boolOp _ vs => astBFList vs
  | .binOp l _ r => astBF l && astBF r
  | .unaryOp _ o => astBF o
  | .call _ _ args _ => astBFList args
  | .other _ => true

/-- All nodes of a list are brace-free. -/
def astBFList : List AstNode → Bool
  | [] => true
  | n :: rest => astBF n && astBFList rest

end

/-- The experiment-set oracle only returns brace-free values. -/
def envBF (env : ExpEnv) : Prop :=
  ∀ v k, valueBF (env.getVarFromExperiment v k) = true

/-- The parse oracle only returns brace-free ASTs (as `ast.parse` does on
brace-free source text). -/
def envAstBF (env : ExpEnv) : Prop :=
  ∀ t n, env.astParse t = .ok n → astBF n = true

/-! ### The experiment chain builder (`application.py` `create_experiment_chain`) -/

/-- A chained-experiment declaration (one item of `chained_experiments`):
the `name`, `command`, optional `order` and optional `variables` keywords;
a keyword absent from the dict is `none`.  (The `variables` override only
affects the cloned instance's bindings, which this model does not observe;
it is carried for shape.) -/
structure ChainEntry where
  name : Option String
  command : Option String
  order : Option String
  varsOv : Option (List (String × Value))

/-- Python object identity of an experiment instance, as used by the
`classes_in_stack` identity set. -/
abbrev InstId := ℕ

/-- Collaborators of the chain builder.  `getExperiment` and
`searchPrimary` model the experiment set's `get_experiment` /
`search_primary_experiments` (that module is not under `src/`; modelled
from the spec as name lookups).  `chainedExps` reads an instance's
`chained_experiments` attribute.  `expandChainCmd` stands for the cloned
instance's `add_expand_vars` + `expander.expand_var` on the chain command
(the expander is verified separately); the source also writes the expanded
command back into the shared entry dict (line 538), an aliasing effect on
command strings only, which this model does not track. -/
structure ChainEnv where
  getExperiment : String → Option InstId
  searchPrimary : String → List String
  chainedExps : InstId → List ChainEntry
  expandChainCmd : String → String → String

/-- `x in classes_in_stack` for a possibly-`None` instance. -/
def optMem (o : Option InstId) (l : List InstId) : Bool :=
  match o with
  | some i => l.contains i
  | none => false

/-- The inner push loop over `search_primary_experiments(exp['name'])`
(lines 444-452 and 549-562): raise cycle detection when a child is an
in-progress ancestor, otherwise push `(exp_name, exp)`. -/
def chainPushNames (env : ChainEnv) (inStack : List InstId) (e : ChainEntry) :
    List String → List (String × ChainEntry) →
    Except PyErr (List (String × ChainEntry))
  | [], acc => .ok acc
  | nm :: rest, acc =>
    if optMem (env.getExperiment nm) inStack then
      .error (.chainCycleDetectedError nm)
    else chainPushNames env inStack e rest (acc ++ [(nm, e)])

/-- The outer push loop over a reversed `chained_experiments` list;
`exp['name']` raises `KeyError` when absent. -/
def chainPushEntries (env : ChainEnv) (inStack : List InstId) :
    List ChainEntry → List (String × ChainEntry) →
    Except PyErr (List (String × ChainEntry))
  | [], acc => .ok acc
  | e :: rest, acc =>
    match e.name with
    | none => .error .keyError
    | some nm =>
      match chainPushNames env inStack e (env.searchPrimary nm) acc with
      | .error err => .error err
      | .ok acc2 => chainPushEntries env inStack rest acc2

/-- The state of the `while len(chain_stack) > 0` loop.  `added` records
the names registered through `add_chained_experiment`; `completions` is a
ghost log of `(new_name, effective order)` in completion sequence, used
only to state ordering theorems. -/
structure ChainState where
  chainPrepend : List String
  chainAppend : List String
  chainCommands : List (String × String)
  chainStack : List (String × ChainEntry)
  classesInStack : List InstId
  chainIdx : ℕ
  added : List String
  completions : List (String × String)

/-- One iteration of the chain-builder loop (`application.py` lines
459-563): validate the top entry; on a second visit pop it, insert the
namespaced chained name into `chain_prepend`/`chain_append` according to
`order` (`before_chain`/`after_root` insert at position 0,
`before_root`/`after_chain` append), record the chain command, and
register the cloned instance when the base instance exists; on a first
visit push the child's own chain entries (reversed) with cycle detection
and mark the instance in progress.  A `None` base instance on a first
visit raises `AttributeError` (`None.chained_experiments`). -/
def chainStep (env : ChainEnv) (parentNs : String) (st : ChainState) :
    Except PyErr ChainState :=
  match st.chainStack.getLast? with
  | none => .ok st
  | some (curName, curDef) =>
    if curDef.name.isNone then
      .error (.invalidChainError "name keyword must be defined")
    else if (match curDef.order with
             | some o =>
               !(["after_chain", "after_root", "before_chain", "before_root"].contains o)
             | none => false) then
      .error (.invalidChainError "order keyword must be one of the allowed values")
    else if curDef.command.isNone then
      .error (.invalidChainError "command keyword must be defined")
    else
      let baseInst := env.getExperiment curName
      if optMem baseInst st.classesInStack then
        let popped := st.chainStack.dropLast
        let classes2 :=
          match baseInst with
          | some i => st.classesInStack.erase i
          | none => st.classesInStack
        let order := curDef.order.getD "after_root"
        let chainedName := toString st.chainIdx ++ "." ++ curName
        let newName := parentNs ++ ".chain." ++ chainedName
        let prepend2 :=
          if order = "before_chain" then newName :: st.chainPrepend
          else if order = "before_root" then st.chainPrepend ++ [newName]
          else st.chainPrepend
        let append2 :=
          if order = "after_root" then newName :: st.chainAppend
          else if order = "after_chain" then st.chainAppend ++ [newName]
          else st.chainAppend
        let cmds1 := dictUpsert st.chainCommands newName (curDef.command.getD "")
        match baseInst with
        | some _ =>
          let chainCmd := env.expandChainCmd newName (curDef.command.getD "")
          .ok { chainPrepend := prepend2
                chainAppend := append2
                chainCommands := dictUpsert cmds1 newName chainCmd
                chainStack := popped
                classesInStack := classes2
                chainIdx := st.chainIdx + 1
                added := st.added ++ [newName]
                completions := st.completions ++ [(newName, order)] }
        | none =>
          .ok { chainPrepend := prepend2
                chainAppend := append2
                chainCommands := cmds1
                chainStack := popped
                classesInStack := classes2
                chainIdx := st.chainIdx + 1
                added := st.added
                completions := st.completions ++ [(newName, order)] }
      else
        match baseInst with
        | none => .error .attributeError
        | some bid =>
          match (if (env.chainedExps bid).isEmpty then .ok st.chainStack
                 else chainPushEntries env st.classesInStack
                   (env.chainedExps bid).reverse st.chainStack) with
          | .error e => .error e
          | .ok stack2 =>
            .ok { st with
                  chainStack := stack2
                  classesInStack := st.classesInStack ++ [bid] }

/-- The chain-builder loop, with fuel for the unbounded `while`. -/
def chainLoop (env : ChainEnv) (parentNs : String) :
    ℕ → ChainState → Except PyErr ChainState
  | 0, _ => .error .fuelExhausted
  | fuel + 1, st =>
    if st.chainStack.isEmpty then .ok st
    else
      match chainStep env parentNs st with
      | .error e => .error e
      | .ok st2 => chainLoop env parentNs fuel st2

/-- The observable outcome of `create_experiment_chain`: the final
prepend/append lists, `chain_order`, `chain_commands`, the chain order
copied into each registered chained child (lines 572-581), and the ghost
completion log. -/
structure ChainResult where
  chainPrepend : List String
  chainAppend : List String
  chainOrder : List String
  chainCommands : List (String × String)
  childOrders : List (String × List String)
  completions : List (String × String)

/-- `ApplicationBase.create_experiment_chain` (lines 425-581): early
return (`none`) when there are no chain declarations or the experiment is
a template (then `chain_order` stays `[]`); otherwise seed the stack from
the reversed declarations, run the loop, build
`chain_order = chain_prepend ++ [root namespace] ++ chain_append`, and
copy it to every chained child that was registered in the experiment
set. -/
def createExperimentChain (env : ChainEnv) (parentNs : String) (rootId : InstId)
    (chainedExperiments : List ChainEntry) (isTemplate : Bool) (fuel : ℕ) :
    Except PyErr (Option ChainResult) :=
  if chainedExperiments.isEmpty || isTemplate then .ok none
  else
    match chainPushEntries env [rootId] chainedExperiments.reverse [] with
    | .error e => .error e
    | .ok stack0 =>
      match chainLoop env parentNs fuel
          { chainPrepend := [], chainAppend := [], chainCommands := [],
            chainStack := stack0, classesInStack := [rootId], chainIdx := 0,
            added := [], completions := [] } with
      | .error e => .error e
      | .ok stF =>
        let order := stF.chainPrepend ++ [parentNs] ++ stF.chainAppend
        .ok (some
          { chainPrepend := stF.chainPrepend
            chainAppend := stF.chainAppend
            chainOrder := order
            chainCommands := stF.chainCommands
            childOrders := ((stF.chainPrepend ++ stF.chainAppend).filter
              (fun nm => stF.added.contains nm)).map (fun nm => (nm, order))
            completions := stF.completions })

/-- The ordering invariant of the chain-builder loop: `chain_prepend` is
the reverse-completion-ordered `before_chain` completions followed by the
completion-ordered `before_root` ones, and symmetrically for
`chain_append` with `after_root` (reversed) and `after_chain`; every
completion carries one of the four order keywords. -/
def chainInv (st : ChainState) : Prop :=
  st.chainPrepend =
    ((st.completions.filter (fun p => p.2 == "before_chain")).map Prod.fst).reverse ++
    (st.completions.filter (fun p => p.2 == "before_root")).map Prod.fst ∧
  st.chainAppend =
    ((st.completions.filter (fun p => p.2 == "after_root")).map Prod.fst).reverse ++
    (st.completions.filter (fun p => p.2 == "after_chain")).map Prod.fst ∧
  ∀ p ∈ st.completions,
    p.2 = "before_chain" ∨ p.2 = "before_root" ∨ p.2 = "after_root" ∨ p.2 = "after_chain"

/-- A concrete chain environment for counterexample/witness runs: a root
`p` with primary children `c1`, `c2`, `c3` that have no chains of their
own; name search is the identity. -/
def envC4 : ChainEnv :=
  { getExperiment := fun nm =>
      if nm = "p" then some 0
      else if nm = "c1" then some 1
      else if nm = "c2" then some 2
      else if nm = "c3" then some 3
      else none
    searchPrimary := fun nm => [nm]
    chainedExps := fun _ => []
    expandChainCmd := fun _ cmd => cmd }

/-- The concrete result of the witness run below, as computed by the
model. -/
def resC4 : ChainResult :=
  { chainPrepend := ["p.chain.0.c1"]
    chainAppend := ["p.chain.1.c2"]
    chainOrder := ["p.chain.0.c1", "p", "p.chain.1.c2"]
    chainCommands := [("p.chain.0.c1", "cmdA"), ("p.chain.1.c2", "cmdB")]
    childOrders := [("p.chain.0.c1", ["p.chain.0.c1", "p", "p.chain.1.c2"]),
                    ("p.chain.1.c2", ["p.chain.0.c1", "p", "p.chain.1.c2"])]
    completions := [("p.chain.0.c1", "before_root"), ("p.chain.1.c2", "after_root")] }

/-! ### Command injection (`application.py` `_inject_commands`) -/

/-- Modelled from the spec: `ramble.util.executable.CommandExecutable` is
not under `src/`.  Per the spec (§ Data Model, "Executable") an executable
carries a template command (a list of parts, as iterated by the source's
loop over `cmd_conf.template`), an MPI flag, a redirection target and an
output-capture operator; an empty redirect string is falsy
(`if command_config.redirect:`). -/
structure CommandExecutable where
  template : List String
  mpi : Bool
  redirect : String
  outputCapture : String

/-- A modifier instance as used by `_inject_commands`:
`applies_to_executable` (fnmatch plus the modifier-builtin regex, a host
call), `modded_variables` and `apply_executable_modifiers` are carried as
oracles. -/
structure ModInst where
  appliesTo : String → Bool
  moddedVars : List (String × String)
  applyExecMods : String → CommandExecutable →
    List CommandExecutable × List CommandExecutable

/-- The application attributes read by `_inject_commands`: the
`self.executables` dict, modifier instances, the `_modifier_builtins`
keys and their command generators, `getattr(self, func)()` for application
builtins (`none` models the `AttributeError` of a missing method), and
the expander as an oracle `expandV template extra_vars` (the expander
itself is modelled and verified separately; here only the emitted command
strings matter). -/
structure InjectEnv where
  execsMap : List (String × CommandExecutable)
  modifierInstances : List ModInst
  modifierBuiltins : List String
  builtinFunc : String → Option (List String)
  modifierBuiltinFunc : String → List String
  expandV : String → List (String × String) → String

/-- Character-list prefix test (kernel-reducible). -/
def isPrefixChars : List Char → List Char → Bool
  | [], _ => true
  | _ :: _, [] => false
  | p :: ps, c :: cs => p == c && isPrefixChars ps cs

/-- Substring containment on character lists. -/
def containsSubChars (pat : List Char) : List Char → Bool
  | [] => isPrefixChars pat []
  | c :: cs => isPrefixChars pat (c :: cs) || containsSubChars pat cs

/-- `re.search` of a literal pattern such as `builtin::(?P<func>.*)`:
the pattern matches somewhere iff the literal occurs as a substring. -/
def containsSub (s pat : String) : Bool := containsSubChars pat.data s.data

/-- `re.match` of a literal-prefixed pattern: the literal must occur at
the start of the string. -/
def strStartsWith (s pat : String) : Bool := isPrefixChars pat.data s.data

/-- `match.group("func")` for the pattern `builtin::(?P<func>.*)` matched
at the start: the rest of the string after the literal prefix. -/
def strDrop (s : String) (n : ℕ) : String := String.mk (s.data.drop n)

/-- Insertion into the `logs` set.  A Python `set` has no specified
iteration order; this model uses first-insertion order, and no theorem
depends on the order among distinct logs. -/
def setInsert (acc : List String) (r : String) : List String :=
  if acc.contains r then acc else acc ++ [r]

/-- The log-collection loop (`application.py` lines 660-669): every
executable whose name matches neither builtin regex (`re.search`, i.e.
substring containment) has its truthy redirect added to the `logs` set;
the dict access `self.executables[executable]` raises `KeyError` for
unknown names. -/
def collectLogs (env : InjectEnv) : List String → List String →
    Except PyErr (List String)
  | [], acc => .ok acc
  | exe :: rest, acc =>
    if !containsSub exe "builtin::" && !containsSub exe "modifier_builtin::" then
      match dictGet env.execsMap exe with
      | none => .error .keyError
      | some conf =>
        if conf.redirect != "" then collectLogs env rest (setInsert acc conf.redirect)
        else collectLogs env rest acc
    else collectLogs env rest acc

/-- The `rm -f`/`touch` purge pair emitted for one log (lines 671-673). -/
def purgePair (log : String) : List String :=
  ["rm -f \"" ++ log ++ "\"", "touch \"" ++ log ++ "\""]

/-- The per-executable command emission of the main loop (lines 675-730):
builtin executables (`builtin_regex.match`, a `builtin::` prefix) call the
named application method; modifier builtins come from
`_modifier_builtins`; directive executables get modifier pre/post
commands and emit `[mpi ]part[ <op> "<log>"]` per template part,
everything expanded with `executable_name` plus the applying modifiers'
variables. -/
def execCommands (env : InjectEnv) (exe : String) : Except PyErr (List String) :=
  let execVars := env.modifierInstances.foldl
    (fun vs m =>
      if m.appliesTo exe then m.moddedVars.foldl (fun d p => dictUpsert d p.1 p.2) vs
      else vs)
    [("executable_name", exe)]
  if strStartsWith exe "builtin::" then
    match env.builtinFunc (strDrop exe "builtin::".length) with
    | none => .error .attributeError
    | some cmds => .ok (cmds.map (fun c => env.expandV c execVars))
  else if env.modifierBuiltins.contains exe then
    .ok ((env.modifierBuiltinFunc exe).map (fun c => env.expandV c execVars))
  else
    match dictGet env.execsMap exe with
    | none => .error .keyError
    | some base =>
      let prePost := env.modifierInstances.foldl
        (fun (pp : List CommandExecutable × List CommandExecutable) m =>
          if m.appliesTo exe then
            let r := m.applyExecMods exe base
            (pp.1 ++ r.1, pp.2 ++ r.2)
          else pp)
        ([], [])
      let configs := prePost.1 ++ [base] ++ prePost.2
      .ok (configs.flatMap (fun conf =>
        let mpiCmd :=
          if conf.mpi then " " ++ env.expandV "\x7bmpi_command\x7d" execVars ++ " "
          else ""
        let redirect :=
          if conf.redirect != "" then
            " " ++ conf.outputCapture ++ " \"" ++ env.expandV conf.redirect execVars ++ "\""
          else ""
        conf.template.map (fun part => env.expandV (mpiCmd ++ part ++ redirect) execVars)))

/-- The main loop over `executables`, concatenating each executable's
emitted commands in order. -/
def execCommandsAll (env : InjectEnv) : List String → Except PyErr (List String)
  | [] => .ok []
  | exe :: rest =>
    match execCommands env exe with
    | .error e => .error e
    | .ok cs =>
      match execCommandsAll env rest with
      | .error e => .error e
      | .ok rs => .ok (cs ++ rs)

/-- The chained-command lookups of lines 656-657 and 733-734
(`self.chain_commands[chained_exp]`, `KeyError` when missing). -/
def chainCmdsLookup (chainCommands : List (String × String)) :
    List String → Except PyErr (List String)
  | [] => .ok []
  | nm :: rest =>
    match dictGet chainCommands nm with
    | none => .error .keyError
    | some c =>
      match chainCmdsLookup chainCommands rest with
      | .error e => .error e
      | .ok cs => .ok (c :: cs)

/-- `ApplicationBase._inject_commands` (lines 651-736): chain-prepend
commands, then one `rm -f`/`touch` pair per collected log, then every
executable's commands in order, then chain-append commands.  The source
finally joins the list with newlines into `self.variables['command']`;
the list itself is the observable here. -/
def injectCommands (env : InjectEnv) (chainPrepend chainAppend : List String)
    (chainCommands : List (String × String)) (executables : List String) :
    Except PyErr (List String) :=
  match chainCmdsLookup chainCommands chainPrepend with
  | .error e => .error e
  | .ok pcmds =>
    match collectLogs env executables [] with
    | .error e => .error e
    | .ok logs =>
      match execCommandsAll env executables with
      | .error e => .error e
      | .ok bodies =>
        match chainCmdsLookup chainCommands chainAppend with
        | .error e => .error e
        | .ok acmds =>
          .ok (pcmds ++ logs.flatMap purgePair ++ bodies ++ acmds)

/-- `l` is a log the purge loop must handle: some executable in the run
list is non-builtin in the code's sense (its name contains neither
`builtin::` nor `modifier_builtin::` as a substring) and has `l` as its
truthy redirect. -/
def logPred (env : InjectEnv) (exes : List String) (l : String) : Prop :=
  ∃ exe ∈ exes, containsSub exe "builtin::" = false ∧
    containsSub exe "modifier_builtin::" = false ∧
    ∃ conf, dictGet env.execsMap exe = some conf ∧
      conf.redirect = l ∧ conf.redirect ≠ ""

/-- The collected `logs` list holds exactly the distinct redirect targets
of the non-builtin executables, each once. -/
def logsSpec (env : InjectEnv) (exes logs : List String) : Prop :=
  logs.Nodup ∧ ∀ l, l ∈ logs ↔ logPred env exes l

/-- Concrete environment for C6: two directive executables, one named
`my_builtin::x` (non-builtin: it neither starts with `builtin::` nor with
`modifier_builtin::`), no modifiers; the expander oracle is the identity
(its commands contain no placeholders). -/
def envC6 : InjectEnv where
  execsMap := [("my_builtin::x", CommandExecutable.mk ["run"] false "log" ">"),
    ("bar", CommandExecutable.mk ["barcmd"] false "logA" ">")]
  modifierInstances := []
  modifierBuiltins := []
  builtinFunc := fun _ => none
  modifierBuiltinFunc := fun _ => []
  expandV := fun s _ => s

/-! ### Log analysis (`application.py` `_analyze_experiments`) -/

/-- A regex match object for one line: its named-group dictionary
(`groupdict()`).  `m.group(name)` is modelled as lookup in this
dictionary; a named group that did not participate in the match is
modelled as absent (Python would yield `None`), a case no theorem
exercises. -/
structure MatchData where
  groups : List (String × String)

/-- A compiled regex as used by the analyzer, as a host oracle:
`matchLine` is `regex.match(line)` and `groupindex` the named groups of
the pattern. -/
structure RegexO where
  matchLine : String → Option MatchData
  groupindex : List String

/-- One context definition (`contexts[context]` in `_analyze_experiments`):
its regex and its format string. -/
structure ContextConf where
  regex : RegexO
  format : String

/-- One figure-of-merit definition (`foms[fom]`): regex, value group
name, units, origin and origin type, and the context names scoping it. -/
structure FomConf where
  regex : RegexO
  group : String
  units : String
  origin : String
  originType : String
  contexts : List String

/-- One entry of `files` from `_analysis_dicts`: the file's lines (the
content `open(file).readlines()` would stream, a host oracle) and the
names of the success criteria, contexts and FOMs attached to the file. -/
structure FileConf where
  lines : List String
  successCriteria : List String
  contexts : List String
  foms : List String

/-- The recorded data of one captured figure of merit
(lines 1123-1128). -/
structure FomVal where
  value : String
  units : String
  origin : String
  originType : String

/-- `fom_values`: context display name → FOM name → captured value
(insertion-ordered dicts). -/
abbrev FomTable : Type := List (String × List (String × FomVal))

/-- Modelled from the spec: `ramble.success_criteria` is not under
`src/`.  Per the spec (§4.7) a success criterion keeps a boolean found
flag; `passed(line, app)` for a file-attached (string-mode) criterion and
`passed(app_inst, fom_values)` for a non-file criterion are host
predicates, carried as oracles; `file` is the criterion's log file
(`None` marks a non-file criterion). -/
structure Criterion where
  name : String
  file : Option String
  linePassed : String → Bool
  fnPassed : FomTable → Bool

/-- The inputs of `_analyze_experiments`: the `files`/`contexts`/`foms`
dicts from `_analysis_dicts`, the criteria list's `all_criteria()`, the
FOM-name expansion `self.expander.expand_var(fom, extra_vars)` as an
oracle, and the experiment attributes read when building the result
document. -/
structure AnalyzeEnv where
  files : List (String × FileConf)
  contexts : List (String × ContextConf)
  foms : List (String × FomConf)
  criteria : List Criterion
  expandFomName : String → List (String × String) → String
  experimentNamespace : String
  chainOrder : List String
  alwaysPrintFoms : Bool

/-- `context_format.replace('\x7b', '').replace('\x7d', '')`: drop every
brace character. -/
def stripBraces (s : String) : String :=
  String.mk (s.data.filter (fun c => !(c == lbraceC) && !(c == rbraceC)))

/-- The `keywords` dict of `format_context` (lines 1048-1052): for every
truthy field name of the parsed format string, `context_match[name]`
(an unknown group name raises `IndexError`). -/
def buildCtxKeywords (m : MatchData) : List Frag → List (String × String) →
    Except PyErr (List (String × String))
  | [], kw => .ok kw
  | .lit _ :: rest, kw => buildCtxKeywords m rest kw
  | .field nm _ :: rest, kw =>
    if nm = "" then buildCtxKeywords m rest kw
    else
      match dictGet m.groups nm with
      | none => .error .indexError
      | some v => buildCtxKeywords m rest (dictUpsert kw nm v)

/-- `context_format.format(**keywords)`: plain `str.format` rendering with
a keyword dict only — a field name missing from the dict raises
`KeyError`, a positional field raises `IndexError` (no positional
arguments are passed). -/
def fmtMapFrags (kw : List (String × String)) : List Frag → Except PyErr String
  | [] => .ok ""
  | .lit s :: rest => (fmtMapFrags kw rest).map (fun r => s ++ r)
  | .field nm _ :: rest =>
    if nm = "" || nm.data.all Char.isDigit then .error .indexError
    else
      match dictGet kw nm with
      | none => .error .keyError
      | some v => (fmtMapFrags kw rest).map (fun r => v ++ r)

/-- `format_context` (lines 1046-1056): the context display name is the
format string with braces removed, `' = '`, then the format string
rendered with the match's groups. -/
def formatContext (m : MatchData) (fmt : String) : Except PyErr String :=
  match scanFmt fmt.data with
  | .error e => .error e
  | .ok frags =>
    match buildCtxKeywords m frags [] with
    | .error e => .error e
    | .ok kw =>
      match fmtMapFrags kw frags with
      | .error e => .error e
      | .ok body => .ok (stripBraces fmt ++ " = " ++ body)

/-- `criteria_list.find_criteria(name)` (a `SuccessList` method, modelled
from the spec): the criterion of that name. -/
def findCriteria (cs : List Criterion) (nm : String) : Option Criterion :=
  cs.find? (fun c => c.name == nm)

/-- The per-line criteria loop (lines 1074-1078): every file-attached
criterion whose `passed(line, app)` holds is marked found.  `found` is the
list of names whose flag is set. -/
def procCriteria (cs : List Criterion) (names : List String) (line : String)
    (found : List String) : Except PyErr (List String) :=
  match names with
  | [] => .ok found
  | nm :: rest =>
    match findCriteria cs nm with
    | none => .error .keyError
    | some c =>
      if c.linePassed line then procCriteria cs rest line (setInsert found nm)
      else procCriteria cs rest line found

/-- The per-line context loop (lines 1080-1095): a matching context regex
computes the display name, updates `active_contexts`, and inserts an
EMPTY entry into `fom_values` for a new display name. -/
def procContexts (env : AnalyzeEnv) (ctxNames : List String) (line : String)
    (active : List (String × String)) (fv : FomTable) :
    Except PyErr (List (String × String) × FomTable) :=
  match ctxNames with
  | [] => .ok (active, fv)
  | ctx :: rest =>
    match dictGet env.contexts ctx with
    | none => .error .keyError
    | some conf =>
      match conf.regex.matchLine line with
      | none => procContexts env rest line active fv
      | some m =>
        match formatContext m conf.format with
        | .error e => .error e
        | .ok ctxName =>
          procContexts env rest line (dictUpsert active ctx ctxName)
            (if (dictGet fv ctxName).isSome then fv else fv ++ [(ctxName, [])])

/-- The per-line FOM loop (lines 1097-1128): on a regex match the FOM
name template is expanded with the match's groups; if the configured
group exists in the pattern, the captured value is recorded under each of
the FOM's contexts' active display names (`null` for an inactive or
absent context). -/
def procFoms (env : AnalyzeEnv) (fomNames : List String) (line : String)
    (active : List (String × String)) (fv : FomTable) : Except PyErr FomTable :=
  match fomNames with
  | [] => .ok fv
  | fom :: rest =>
    match dictGet env.foms fom with
    | none => .error .keyError
    | some conf =>
      match conf.regex.matchLine line with
      | none => procFoms env rest line active fv
      | some m =>
        let fomName := env.expandFomName fom m.groups
        if conf.regex.groupindex.contains conf.group then
          let fomContexts :=
            match conf.contexts with
            | [] => ["null"]
            | cs => cs.map (fun ctx => (dictGet active ctx).getD "null")
          let fomVal := (dictGet m.groups conf.group).getD ""
          procFoms env rest line active
            (fomContexts.foldl (fun t ctxName =>
              dictUpsert t ctxName
                (dictUpsert ((dictGet t ctxName).getD [])
                  fomName (FomVal.mk fomVal conf.units conf.origin conf.originType))) fv)
        else procFoms env rest line active fv

/-- One file's line loop (lines 1072-1128): criteria, then contexts, then
FOMs, threading the found flags, the active contexts and the FOM table. -/
def procLines (env : AnalyzeEnv) (fc : FileConf) :
    List String → List String × List (String × String) × FomTable →
    Except PyErr (List String × List (String × String) × FomTable)
  | [], st => .ok st
  | line :: rest, (found, active, fv) =>
    match procCriteria env.criteria fc.successCriteria line found with
    | .error e => .error e
    | .ok found2 =>
      match procContexts env fc.contexts line active fv with
      | .error e => .error e
      | .ok (active2, fv2) =>
        match procFoms env fc.foms line active2 fv2 with
        | .error e => .error e
        | .ok fv3 => procLines env fc rest (found2, active2, fv3)

/-- The file loop (lines 1065-1128): each file starts with no active
contexts; found flags and the FOM table persist across files. -/
def procFiles (env : AnalyzeEnv) :
    List (String × FileConf) → List String × FomTable →
    Except PyErr (List String × FomTable)
  | [], st => .ok st
  | (_, fc) :: rest, (found, fv) =>
    match procLines env fc fc.lines (found, [], fv) with
    | .error e => .error e
    | .ok (found2, _, fv2) => procFiles env rest (found2, fv2)

/-- The non-file criteria pass (lines 1131-1134): a criterion with no
file whose `passed(app_inst, fom_values)` holds is marked found. -/
def procNonFile (fv : FomTable) : List Criterion → List String → List String
  | [], found => found
  | c :: rest, found =>
    if c.file.isNone && c.fnPassed fv then procNonFile fv rest (setInsert found c.name)
    else procNonFile fv rest found

/-- Modelled from the spec: `SuccessList.passed()` is not under `src/`;
per the spec every registered criterion must be satisfied, i.e. every
criterion's found flag is set. -/
def criteriaListPassed (cs : List Criterion) (found : List String) : Bool :=
  cs.all (fun c => found.contains c.name)

/-- The emitted result document (lines 1136-1165): `name`,
`EXPERIMENT_CHAIN`, `RAMBLE_STATUS`, and — only on success or with
"always print FOMs" — the `CONTEXTS` table (`RAMBLE_VARIABLES` /
`RAMBLE_RAW_VARIABLES`, plain copies of the variable dict through the
expander oracle, are outside the model). -/
structure ResultsDoc where
  name : String
  experimentChain : List String
  rambleStatus : String
  contexts : Option FomTable

/-- `ApplicationBase._analyze_experiments` (lines 1058-1167): consume all
files, run the non-file criteria, and emit the result document with
`success = bool(fom_values) and criteria_list.passed()`. -/
def analyzeExperiments (env : AnalyzeEnv) : Except PyErr ResultsDoc :=
  match procFiles env env.files ([], []) with
  | .error e => .error e
  | .ok (found, fv) =>
    let found2 := procNonFile fv env.criteria found
    let success := !(fv.isEmpty) && criteriaListPassed env.criteria found2
    .ok (ResultsDoc.mk env.experimentNamespace env.chainOrder
      (if success then "SUCCESS" else "FAILED")
      (if success || env.alwaysPrintFoms then some fv else none))

/-- The context regex of the C3 example: matches the line `Iteration 3`,
capturing `iter = "3"`. -/
def regexIter : RegexO where
  matchLine := fun l =>
    if l == "Iteration 3" then some (MatchData.mk [("iter", "3")]) else none
  groupindex := ["iter"]

/-- Concrete C3 environment: one log file whose first line activates the
`iter` context; no FOM definitions and no success criteria at all. -/
def envC3 : AnalyzeEnv where
  files := [("log.out", FileConf.mk ["Iteration 3", "done"] [] ["iter"] [])]
  contexts := [("iter", ContextConf.mk regexIter "\x7biter\x7d")]
  foms := []
  criteria := []
  expandFomName := fun f _ => f
  experimentNamespace := "app.wl.exp"
  chainOrder := ["app.wl.exp"]
  alwaysPrintFoms := false

/-- The result document `_analyze_experiments` emits on `envC3`. -/
def resC3 : ResultsDoc where
  name := "app.wl.exp"
  experimentChain := ["app.wl.exp"]
  rambleStatus := "SUCCESS"
  contexts := some [("iter = 3", [])]

/-! ## Theorems -/

/-- Joint state-preservation lemma for the evaluator and its two list
loops: no branch of `eval_math` writes to the expander state. -/
theorem evalState_aux :
    ∀ fuel : ℕ,
      (∀ (env : ExpEnv) (st : ExpState) (n : AstNode),
        (evalMath fuel env st n).2 = st) ∧
      (∀ (env : ExpEnv) (st : ExpState) (l : List AstNode),
        (evalArgs fuel env st l).2 = st) ∧
      (∀ (env : ExpEnv) (st : ExpState) (f : Value → Value → Except PyErr Value)
        (acc : Value) (l : List AstNode),
        (evalBoolFold fuel env st f acc l).2 = st) := by
  intro fuel
  induction fuel with
  | zero => exact ⟨fun _ st _ => rfl, fun _ st _ => rfl, fun _ st _ _ _ => rfl⟩
  | succ fuel ih =>
    obtain ⟨ihM, ihA, ihB⟩ := ih
    refine ⟨?_, ?_, ?_⟩
    · intro env st n
      match n with
      | .num v => rfl
      | .constant v => rfl
      | .name id => rfl
      | .attribute v a => rfl
      | .other t => rfl
      | .compare left ops comps =>
        simp only [evalMath]
        (repeat' split) <;> simp_all [ihM]
      | .boolOp op values =>
        simp only [evalMath]
        split <;> try rfl
        (repeat' split) <;> simp_all [ihM, ihB]
      | .binOp left op right =>
        simp only [evalMath]
        (repeat' split) <;> simp_all [ihM]
      | .unaryOp op operand =>
        simp only [evalMath]
        (repeat' split) <;> simp_all [ihM]
      | .call fin fid args hkw =>
        simp only [evalMath]
        (repeat' split) <;> simp_all [ihA]
    · intro env st l
      match l with
      | [] => rfl
      | a :: rest =>
        simp only [evalArgs]
        (repeat' split) <;> simp_all [ihM, ihA]
    · intro env st f acc l
      match l with
      | [] => rfl
      | v :: rest =>
        simp only [evalBoolFold]
        (repeat' split) <;> simp_all [ihM, ihB]

/-- C8: the expression evaluator is pure — evaluating any AST node with
`eval_math` leaves the expander's `_variables` binding unchanged, whether
evaluation succeeds or raises. -/
theorem c8_eval_math_pure (fuel : ℕ) (env : ExpEnv) (st : ExpState) (n : AstNode) :
    (evalMath fuel env st n).2 = st :=
  (evalState_aux fuel).1 env st n

/-- C2 (code bug): for a chained comparison `1 < 2 < 3` the source intends
the left-to-right conjunction (each pairwise comparison alone evaluates to
`True`), but on Python 3 line 458 subscripts a `zip` object
(`zip(node.ops, node.comparators)[1:]`), raising `TypeError`, which the
`except TypeError` clause converts into `SyntaxError`; so every comparison
with more than one operator fails instead of returning the conjunction. -/
theorem c2_chained_comparison_raises :
    (evalMath 10 envEmpty stEmpty (.compare (.num (.vInt 1)) [.cLt, .cLt]
      [.num (.vInt 2), .num (.vInt 3)])).1 =
      .error (.syntaxError "Unsupported operand type in binary comparison operator") ∧
    (evalMath 10 envEmpty stEmpty (.compare (.num (.vInt 1)) [.cLt]
      [.num (.vInt 2)])).1 = .ok (.vBool true) ∧
    (evalMath 10 envEmpty stEmpty (.compare (.num (.vInt 2)) [.cLt]
      [.num (.vInt 3)])).1 = .ok (.vBool true) := by
  refine ⟨rfl, ?_, ?_⟩ <;> simp [evalMath, cmpLookup, pyOrd, asNumV] <;> rfl

/-- C10: evaluating `x in a.b.c` raises `RambleSyntaxError` whenever the
value retrieved from the experiment set is falsy — not only when the
experiment is absent (`expander.py` line 484: `if not val`). -/
theorem c10_comp_in_falsy (env : ExpEnv) (st : ExpState) (fuel : ℕ)
    (varName attr : String) (base : AstNode) (rest : List AstNode) (ns : Value)
    (hns : (evalMath fuel env st (.attribute base attr)).1 = .ok ns)
    (hfalsy : pyTruthy (env.getVarFromExperiment ns ("\x7b" ++ varName ++ "\x7d")) = false) :
    (evalMath (fuel + 1) env st (.compare (.name varName) [.inOp]
      (.attribute base attr :: rest))).1 =
      .error (.rambleSyntaxError (pyStr ns ++ " does not exist in: \"" ++
        varName ++ " in " ++ pyStr ns ++ "\"")) := by
  simp [evalMath, hns, hfalsy]



/-- Witness for `c10_comp_in_falsy` at a concrete input: `x in a.b` where
the looked-up value is the empty string. -/
theorem c10_witness :
    (evalMath 1 envEmptyVal stEmpty (.attribute (.name "a") "b")).1 =
        .ok (.vStr "a.b") ∧
    pyTruthy (envEmptyVal.getVarFromExperiment (.vStr "a.b")
        ("\x7b" ++ "x" ++ "\x7d")) = false ∧
    (evalMath 2 envEmptyVal stEmpty (.compare (.name "x") [.inOp]
        [.attribute (.name "a") "b"])).1 =
      .error (.rambleSyntaxError (pyStr (.vStr "a.b") ++ " does not exist in: \"" ++
        "x" ++ " in " ++ pyStr (.vStr "a.b") ++ "\"")) :=
  ⟨rfl, rfl,
   c10_comp_in_falsy envEmptyVal stEmpty 1 "x" "b" (.name "a") [] (.vStr "a.b") rfl rfl⟩

/-- C7 (amended): in `_eval_binary_ops`, any of the six supported binary
operators with a string operand fails with
`SyntaxError("Unsupported operand type in binary operator")`; on numeric
operands `+ - *` return the exact sum/difference/product (int results on
ints, float results on floats), `/` is true division producing a float and
raising `ZeroDivisionError` on a zero divisor, `**` on an int base and
nonnegative int exponent returns the integer power, and `^` is bitwise xor
on integers. -/
theorem c7_binary_ops (fuel : ℕ) (env : ExpEnv) (st : ExpState) :
    (∀ (a b : Value) (op : BinOpKind), op ≠ .otherBin →
      (isStrV a = true ∨ isStrV b = true) →
      (evalMath (fuel + 2) env st (.binOp (.constant a) op (.constant b))).1 =
        .error (.syntaxError "Unsupported operand type in binary operator")) ∧
    (∀ m n : ℤ,
      (evalMath (fuel + 2) env st (.binOp (.constant (.vInt m)) .add (.constant (.vInt n)))).1 =
        .ok (.vInt (m + n)) ∧
      (evalMath (fuel + 2) env st (.binOp (.constant (.vInt m)) .sub (.constant (.vInt n)))).1 =
        .ok (.vInt (m - n)) ∧
      (evalMath (fuel + 2) env st (.binOp (.constant (.vInt m)) .mult (.constant (.vInt n)))).1 =
        .ok (.vInt (m * n)) ∧
      (n ≠ 0 →
        (evalMath (fuel + 2) env st (.binOp (.constant (.vInt m)) .div (.constant (.vInt n)))).1 =
          .ok (.vFloat ((m : ℚ) / (n : ℚ)))) ∧
      (n = 0 →
        (evalMath (fuel + 2) env st (.binOp (.constant (.vInt m)) .div (.constant (.vInt n)))).1 =
          .error .zeroDivisionError) ∧
      (0 ≤ n →
        (evalMath (fuel + 2) env st (.binOp (.constant (.vInt m)) .pow (.constant (.vInt n)))).1 =
          .ok (.vInt (m ^ n.toNat))) ∧
      (evalMath (fuel + 2) env st (.binOp (.constant (.vInt m)) .bitXor (.constant (.vInt n)))).1 =
        .ok (.vInt (Int.xor m n))) ∧
    (∀ q r : ℚ,
      (evalMath (fuel + 2) env st (.binOp (.constant (.vFloat q)) .add (.constant (.vFloat r)))).1 =
        .ok (.vFloat (q + r)) ∧
      (evalMath (fuel + 2) env st (.binOp (.constant (.vFloat q)) .sub (.constant (.vFloat r)))).1 =
        .ok (.vFloat (q - r)) ∧
      (evalMath (fuel + 2) env st (.binOp (.constant (.vFloat q)) .mult (.constant (.vFloat r)))).1 =
        .ok (.vFloat (q * r)) ∧
      (r ≠ 0 →
        (evalMath (fuel + 2) env st (.binOp (.constant (.vFloat q)) .div (.constant (.vFloat r)))).1 =
          .ok (.vFloat (q / r))) ∧
      (r = 0 →
        (evalMath (fuel + 2) env st (.binOp (.constant (.vFloat q)) .div (.constant (.vFloat r)))).1 =
          .error .zeroDivisionError)) := by
  refine ⟨?_, ?_, ?_⟩
  · intro a b op hop hstr
    rcases hstr with h | h
    · rcases a with _ | _ | _ | s | _ | _ <;> simp [isStrV] at h
      cases op <;> simp [evalMath, isStrV, binLookup, catchBin]
      exact absurd rfl hop
    · rcases b with _ | _ | _ | s | _ | _ <;> simp [isStrV] at h
      cases op <;> simp [evalMath, isStrV, binLookup, catchBin]
      exact absurd rfl hop
  · intro m n
    refine ⟨?_, ?_, ?_, ?_, ?_, ?_, ?_⟩ <;>
      simp [evalMath, binLookup, isStrV, pyAdd, pySub, pyMul, pyDiv, pyPow, pyXor,
        asIntV, asNumV, catchBin]
    · intro hn
      simp [hn]
    · intro hn
      simp [hn]
    · intro hn
      simp [hn]
  · intro q r
    refine ⟨?_, ?_, ?_, ?_, ?_⟩ <;>
      simp [evalMath, binLookup, isStrV, pyAdd, pySub, pyMul, pyDiv,
        asIntV, asNumV, catchBin]
    · intro hr
      simp [hr]
    · intro hr
      simp [hr]



/-- C7 counterexample to the claim as stated: `1.5 ^ 2` has numeric
operands and `^` is one of the listed operators, yet evaluation fails with
a syntax error instead of returning an arithmetic result, because
`operator.xor` raises `TypeError` on floats. -/
theorem c7_float_xor_counterexample :
    (evalMath 10 envEmpty stEmpty (.binOp (.num (.vFloat (3 / 2))) .bitXor
      (.num (.vInt 2)))).1 =
      .error (.syntaxError "Unsupported operand type in binary operator") := by
  simp [evalMath, binLookup, isStrV, pyXor, asIntV, catchBin]

/-- Witness for `c7_binary_ops` at concrete inputs: `1 / 2` is the float
`0.5`, and `"x" + 1` is a syntax error. -/
theorem c7_witness :
    ((2 : ℤ) ≠ 0) ∧
    (evalMath 2 envEmpty stEmpty
        (.binOp (.constant (.vInt 1)) .div (.constant (.vInt 2)))).1 =
      .ok (.vFloat ((1 : ℚ) / (2 : ℚ))) ∧
    (BinOpKind.add ≠ BinOpKind.otherBin) ∧
    (isStrV (.vStr "x") = true ∨ isStrV (.vInt 1) = true) ∧
    (evalMath 2 envEmpty stEmpty
        (.binOp (.constant (.vStr "x")) .add (.constant (.vInt 1)))).1 =
      .error (.syntaxError "Unsupported operand type in binary operator") :=
  ⟨by decide,
   ((c7_binary_ops 0 envEmpty stEmpty).2.1 1 2).2.2.2.1 (by decide),
   fun h => BinOpKind.noConfusion h,
   Or.inl rfl,
   (c7_binary_ops 0 envEmpty stEmpty).1 (.vStr "x") (.vInt 1) .add
     (fun h => BinOpKind.noConfusion h) (Or.inl rfl)⟩

theorem scanFmt_cons_nonBrace (c : Char) (cs : List Char) (h : nonBrace c = true) :
    scanFmt (c :: cs) = (scanFmt cs).map (fun fs => Frag.lit (String.singleton c) :: fs) := by
  simp [nonBrace, Bool.and_eq_true] at h
  match cs with
  | [] => simp [scanFmt, h.1, h.2, Except.map]
  | c2 :: rest => simp [scanFmt, h.1, h.2]

theorem scanFmt_braceFree (cs : List Char) (h : cs.all nonBrace = true) :
    scanFmt cs = .ok (litFrags cs) := by
  induction cs with
  | nil => rfl
  | cons c rest ih =>
    simp only [List.all_cons, Bool.and_eq_true] at h
    rw [scanFmt_cons_nonBrace c rest h.1, ih h.2]
    rfl

theorem fragKeywords_litFrags (cs : List Char) :
    fragKeywords (litFrags cs) = [] := by
  induction cs with
  | nil => rfl
  | cons c rest ih => simp [litFrags, fragKeywords]

theorem vformatFrags_lits (args : List String) (kw : List (String × Value))
    (cs : List Char) (ai : ℕ) (ua um : Bool) (out : String) :
    vformatFrags args kw (litFrags cs) ai ua um out = .ok (String.mk (out.data ++ cs)) := by
  induction cs generalizing out with
  | nil => simp [litFrags, vformatFrags]
  | cons c rest ih =>
    rw [show litFrags (c :: rest) = Frag.lit (String.singleton c) :: litFrags rest from rfl]
    rw [show vformatFrags args kw (Frag.lit (String.singleton c) :: litFrags rest) ai ua um out =
      vformatFrags args kw (litFrags rest) ai ua um (out ++ String.singleton c) from rfl]
    rw [ih]
    congr 1
    simp [String.data_append]

theorem buildExpDict_lits (expVars : List (String × Value))
    (pe : Value → Except PyErr Value) (cs : List Char)
    (d : List (String × Value)) (pos : List String) :
    buildExpDict expVars pe (litFrags cs) d pos = .ok (d, pos) := by
  induction cs with
  | nil => rfl
  | cons c rest ih => simpa [litFrags, buildExpDict] using ih

theorem partExpand_braceFree (env : ExpEnv) (selfSt : ExpState) (fuel : ℕ)
    (expVars : List (String × Value)) (s : String) (ap : Bool)
    (hbf : braceFreeStr s = true) :
    partExpand env selfSt (fuel + 1) expVars (.vStr s) ap = .ok (.vStr s) := by
  simp only [partExpand, scanFmt_braceFree _ hbf, buildExpDict_lits, evalDictLoop,
    List.foldl_nil, vformatFrags_lits]
  simp

theorem fullyExpandedV_braceFree (s : String) (hbf : braceFreeStr s = true) :
    fullyExpandedV (.vStr s) = .ok true := by
  simp only [fullyExpandedV, scanFmt_braceFree _ hbf, Except.map, fragKeywords_litFrags]
  simp

/-- C1 (amended): for a fully-expanded string `s` containing no brace
characters, `expand_var` returns `str(m).lstrip()` where `m` is the
math-evaluation of `s` when that succeeds (recoverable evaluation errors
keep `s` itself, other evaluation errors propagate); so `expand(s) == s`
exactly when `s` has no leading whitespace and evaluation does not rewrite
it. -/
theorem c1_expand_fully_expanded (env : ExpEnv) (fuel : ℕ)
    (selfVars : List (String × Value)) (extraVars : Option (List (String × Value)))
    (ap : Bool) (s : String) (hbf : braceFreeStr s = true) :
    expandVar env (fuel + 1) selfVars extraVars (.vStr s) ap =
      (mathHook env (fuel + 1) selfVars (.vStr s)).map (fun v => lstrip (pyStr v)) := by
  simp only [expandVar, partExpand_braceFree, fullyExpandedV_braceFree, hbf, mathHook,
    show pyStr (Value.vStr s) = s from rfl]
  cases hp : env.astParse s with
  | error u => rfl
  | ok node =>
    cases he : (evalMath (fuel + 1) env ⟨selfVars⟩ node).1 with
    | ok ev => simp [he, Except.map, pyStr]
    | error e => cases e <;> simp [he, Except.map, pyStr]

/-- C1 counterexample: `"2+3"` is fully expanded (it contains no
placeholders), yet `expand_var` returns `"5"` — the expander evaluates
arithmetic on fully-expanded strings, so it is not the identity on them. -/
theorem c1_counterexample :
    fullyExpandedV (.vStr "2+3") = .ok true ∧
    expandVar envMath 5 [] none (.vStr "2+3") true = .ok "5" ∧
    ¬ ("5" = "2+3") :=
  ⟨rfl, rfl, by decide⟩

/-- Witness for `c1_expand_fully_expanded` at the brace-free input
`"abc"`: the math hook evaluates the name to itself, so expansion is the
identity there. -/
theorem c1_witness :
    braceFreeStr "abc" = true ∧
    expandVar envEmpty (4 + 1) [] none (.vStr "abc") true =
      (mathHook envEmpty (4 + 1) [] (.vStr "abc")).map (fun v => lstrip (pyStr v)) :=
  ⟨rfl, c1_expand_fully_expanded envEmpty 4 [] none true "abc" rfl⟩

theorem head_dropWhile_not_ws (l : List Char) (c : Char)
    (h : (l.dropWhile Char.isWhitespace).head? = some c) : c.isWhitespace = false := by
  induction l with
  | nil => simp [List.dropWhile] at h
  | cons x xs ih =>
    by_cases hx : x.isWhitespace
    · rw [List.dropWhile_cons, if_pos hx] at h
      exact ih h
    · rw [List.dropWhile_cons, if_neg hx] at h
      simp at h
      subst h
      simpa using hx

/-- C9: every successful `expand_var` result passes through
`str(...).lstrip()` (line 239), so it never begins with a whitespace
character, whatever the template, the bindings and the oracles are. -/
theorem c9_result_lstripped (env : ExpEnv) (fuel : ℕ)
    (selfVars : List (String × Value)) (extraVars : Option (List (String × Value)))
    (var : Value) (ap : Bool) (s : String) (c : Char)
    (h : expandVar env fuel selfVars extraVars var ap = .ok s)
    (hc : s.data.head? = some c) :
    c.isWhitespace = false := by
  unfold expandVar at h
  repeat' split at h
  all_goals first
    | (injection h with h2; subst h2; exact head_dropWhile_not_ws _ c hc)
    | exact absurd h (by simp)

/-- Witness for `c9_result_lstripped`: expanding `"  a"` returns `"a"`,
whose head is not whitespace. -/
theorem c9_witness :
    expandVar envEmpty 5 [] none (.vStr "  a") true = .ok "a" ∧
    ("a" : String).data.head? = some (Char.ofNat 97) ∧
    (Char.ofNat 97).isWhitespace = false :=
  ⟨rfl, rfl,
   c9_result_lstripped envEmpty 5 [] none (.vStr "  a") true "a" (Char.ofNat 97) rfl rfl⟩

theorem digitChar_nonBrace (n : ℕ) : nonBrace (Nat.digitChar n) = true := by
  match n with
  | 0 | 1 | 2 | 3 | 4 | 5 | 6 | 7 | 8 | 9 | 10 | 11 | 12 | 13 | 14 | 15 => rfl
  | m + 16 =>
    unfold Nat.digitChar
    repeat rw [if_neg (by omega)]
    rfl

theorem toDigitsCore_nonBrace (b fuel : ℕ) :
    ∀ (n : ℕ) (acc : List Char), acc.all nonBrace = true →
    (Nat.toDigitsCore b fuel n acc).all nonBrace = true := by
  induction fuel with
  | zero => intro n acc hacc; simpa [Nat.toDigitsCore] using hacc
  | succ f ih =>
    intro n acc hacc
    unfold Nat.toDigitsCore
    dsimp only
    split
    · simp [digitChar_nonBrace, hacc]
    · exact ih _ _ (by simp [digitChar_nonBrace, hacc])

theorem natRepr_braceFree (n : ℕ) : braceFreeStr (Nat.repr n) = true := by
  simpa [Nat.repr, Nat.toDigits, braceFreeStr, List.asString] using
    toDigitsCore_nonBrace 10 (n + 1) n [] rfl

theorem braceFreeStr_append (a b : String) :
    braceFreeStr (a ++ b) = (braceFreeStr a && braceFreeStr b) := by
  simp [braceFreeStr, String.data_append, List.all_append]

theorem intRepr_braceFree (n : ℤ) : braceFreeStr (toString n) = true := by
  show braceFreeStr (Int.repr n) = true
  cases n with
  | ofNat m => exact natRepr_braceFree m
  | negSucc m =>
    show braceFreeStr ("-" ++ Nat.repr (m + 1)) = true
    rw [braceFreeStr_append]
    simp [natRepr_braceFree]
    decide

theorem floatRepr_braceFree (q : ℚ) : braceFreeStr (floatRepr q) = true := by
  unfold floatRepr
  split
  · simp [braceFreeStr_append, intRepr_braceFree]
    decide
  · simp [braceFreeStr_append, intRepr_braceFree]
    refine ⟨by decide, ?_⟩
    exact natRepr_braceFree q.den

theorem intercalateGo_braceFree (sep : String) (hs : braceFreeStr sep = true) :
    ∀ (l : List String) (acc : String), braceFreeStr acc = true →
    (∀ p ∈ l, braceFreeStr p = true) →
    braceFreeStr (String.intercalate.go acc sep l) = true := by
  intro l
  induction l with
  | nil => intro acc hacc _; exact hacc
  | cons a as ih =>
    intro acc hacc hl
    show braceFreeStr (String.intercalate.go (acc ++ sep ++ a) sep as) = true
    exact ih _ (by simp [braceFreeStr_append, hacc, hs, hl a (by simp)])
      (fun p hp => hl p (by simp [hp]))

theorem intercalate_braceFree (sep : String) (hs : braceFreeStr sep = true)
    (l : List String) (h : ∀ p ∈ l, braceFreeStr p = true) :
    braceFreeStr (String.intercalate sep l) = true := by
  match l with
  | [] => show braceFreeStr "" = true; decide
  | a :: as =>
    show braceFreeStr (String.intercalate.go a sep as) = true
    exact intercalateGo_braceFree sep hs as a (h a (by simp))
      (fun p hp => h p (by simp [hp]))

theorem pyStrBF_aux : ∀ k : ℕ,
    (∀ v : Value, sizeOf v ≤ k → valueBF v = true → braceFreeStr (pyStr v) = true) ∧
    (∀ v : Value, sizeOf v ≤ k → valueBF v = true → braceFreeStr (pyReprV v) = true) ∧
    (∀ l : List Value, sizeOf l ≤ k → valueBFList l = true →
      ∀ p ∈ pyReprList l, braceFreeStr p = true) := by
  intro k
  induction k using Nat.strong_induction_on with
  | _ k ih =>
    refine ⟨?_, ?_, ?_⟩
    · intro v hk hbf
      match v with
      | .vStr s => simpa [pyStr, valueBF] using hbf
      | .vInt n => simpa [pyStr] using intRepr_braceFree n
      | .vBool b => cases b <;> decide
      | .vNone => decide
      | .vFloat q => simpa [pyStr] using floatRepr_braceFree q
      | .vList l =>
        have hlt : sizeOf l < k := by
          have : sizeOf (Value.vList l) = 1 + sizeOf l := by simp
          omega
        have hl := (ih (sizeOf l) hlt).2.2 l (le_refl _) (by simpa [valueBF] using hbf)
        show braceFreeStr ("[" ++ String.intercalate ", " (pyReprList l) ++ "]") = true
        rw [braceFreeStr_append, braceFreeStr_append]
        simp only [Bool.and_eq_true]
        exact ⟨⟨by decide, intercalate_braceFree ", " (by decide) _ hl⟩, by decide⟩
    · intro v hk hbf
      match v with
      | .vStr s =>
        show braceFreeStr ("'" ++ s ++ "'") = true
        rw [braceFreeStr_append, braceFreeStr_append]
        simp only [Bool.and_eq_true]
        exact ⟨⟨by decide, by simpa [valueBF] using hbf⟩, by decide⟩
      | .vInt n => simpa [pyReprV] using intRepr_braceFree n
      | .vBool b => cases b <;> decide
      | .vNone => decide
      | .vFloat q => simpa [pyReprV] using floatRepr_braceFree q
      | .vList l =>
        have hlt : sizeOf l < k := by
          have : sizeOf (Value.vList l) = 1 + sizeOf l := by simp
          omega
        have hl := (ih (sizeOf l) hlt).2.2 l (le_refl _) (by simpa [valueBF] using hbf)
        show braceFreeStr ("[" ++ String.intercalate ", " (pyReprList l) ++ "]") = true
        rw [braceFreeStr_append, braceFreeStr_append]
        simp only [Bool.and_eq_true]
        exact ⟨⟨by decide, intercalate_braceFree ", " (by decide) _ hl⟩, by decide⟩
    · intro l hk hbf
      match l with
      | [] => intro p hp; simp [pyReprList] at hp
      | v :: rest =>
        intro p hp
        have hsz : sizeOf v < k ∧ sizeOf rest < k := by
          have : sizeOf (v :: rest) = 1 + sizeOf v + sizeOf rest := by simp
          omega
        have hbf2 : valueBF v = true ∧ valueBFList rest = true := by
          simpa [valueBFList, Bool.and_eq_true] using hbf
        rcases (by simpa [pyReprList] using hp : p = pyReprV v ∨ p ∈ pyReprList rest)
          with rfl | hp2
        · exact (ih (sizeOf v) hsz.1).2.1 v (le_refl _) hbf2.1
        · exact (ih (sizeOf rest) hsz.2).2.2 rest (le_refl _) hbf2.2 p hp2

/-- Brace-freeness of the `str()` rendering of a brace-free value. -/
theorem pyStr_braceFree (v : Value) (h : valueBF v = true) :
    braceFreeStr (pyStr v) = true :=
  (pyStrBF_aux (sizeOf v)).1 v (le_refl _) h

theorem valueBFList_append (l m : List Value) :
    valueBFList (l ++ m) = (valueBFList l && valueBFList m) := by
  induction l with
  | nil => simp [valueBFList]
  | cons v rest ih => simp [valueBFList, ih, Bool.and_assoc]

theorem valueBFList_mem (l : List Value) :
    valueBFList l = true ↔ ∀ v ∈ l, valueBF v = true := by
  induction l with
  | nil => simp [valueBFList]
  | cons v rest ih => simp [valueBFList, Bool.and_eq_true, ih]

theorem foldl_append_mem {α : Type} (l : List α) :
    ∀ (r : List ℕ) (acc : List α) (p : α),
    p ∈ r.foldl (fun acc2 _ => acc2 ++ l) acc → p ∈ acc ∨ p ∈ l := by
  intro r
  induction r with
  | nil => intro acc p hp; exact Or.inl hp
  | cons x rest ih =>
    intro acc p hp
    rcases ih (acc ++ l) p hp with h | h
    · rcases List.mem_append.mp h with h2 | h2
      · exact Or.inl h2
      · exact Or.inr h2
    · exact Or.inr h

theorem seqRepeat_mem {α : Type} (l : List α) (n : ℤ) (p : α)
    (hp : p ∈ seqRepeat l n) : p ∈ l := by
  unfold seqRepeat at hp
  rcases foldl_append_mem l _ [] p hp with h | h
  · simp at h
  · exact h

theorem strJoin_braceFree_aux (l : List String) :
    ∀ acc : String, braceFreeStr acc = true → (∀ p ∈ l, braceFreeStr p = true) →
    braceFreeStr (List.foldl (fun r s => r ++ s) acc l) = true := by
  induction l with
  | nil => intro acc hacc _; exact hacc
  | cons a as ih =>
    intro acc hacc hl
    exact ih _ (by simp [braceFreeStr_append, hacc, hl a (by simp)])
      (fun p hp => hl p (by simp [hp]))

theorem strJoin_braceFree (l : List String) (h : ∀ p ∈ l, braceFreeStr p = true) :
    braceFreeStr (String.join l) = true :=
  strJoin_braceFree_aux l "" (by decide) h

theorem pyAdd_BF (a b v : Value) (ha : valueBF a = true) (hb : valueBF b = true)
    (h : pyAdd a b = .ok v) : valueBF v = true := by
  unfold pyAdd at h
  repeat' split at h
  all_goals first
    | exact Except.noConfusion h
    | (injection h with h2; subst h2;
       simp_all [valueBF, braceFreeStr_append, valueBFList_append])

theorem pySub_BF (a b v : Value) (h : pySub a b = .ok v) : valueBF v = true := by
  unfold pySub at h
  repeat' split at h
  all_goals first
    | exact Except.noConfusion h
    | (injection h with h2; subst h2; rfl)

theorem pyMul_BF (a b v : Value) (ha : valueBF a = true) (hb : valueBF b = true)
    (h : pyMul a b = .ok v) : valueBF v = true := by
  unfold pyMul at h
  repeat' split at h
  all_goals first
    | exact Except.noConfusion h
    | (injection h with h2; subst h2;
       first
        | rfl
        | (simp only [valueBF]
           refine strJoin_braceFree _ (fun p hp => ?_)
           have h3 := seqRepeat_mem _ _ _ hp
           simp at h3
           subst h3
           simp_all [valueBF])
        | (simp only [valueBF]
           refine (valueBFList_mem _).mpr (fun w hw => ?_)
           refine (valueBFList_mem _).mp ?_ w (seqRepeat_mem _ _ _ hw)
           simp_all [valueBF]))

theorem pyDiv_BF (a b v : Value) (h : pyDiv a b = .ok v) : valueBF v = true := by
  unfold pyDiv at h
  repeat' split at h
  all_goals first
    | exact Except.noConfusion h
    | (injection h with h2; subst h2; rfl)

theorem pyPow_BF (a b v : Value) (h : pyPow a b = .ok v) : valueBF v = true := by
  unfold pyPow at h
  repeat' split at h
  all_goals first
    | exact Except.noConfusion h
    | (injection h with h2; subst h2; rfl)

theorem pyXor_BF (a b v : Value) (h : pyXor a b = .ok v) : valueBF v = true := by
  unfold pyXor at h
  repeat' split at h
  all_goals first
    | exact Except.noConfusion h
    | (injection h with h2; subst h2; rfl)

theorem pyBitAnd_BF (a b v : Value) (h : pyBitAnd a b = .ok v) : valueBF v = true := by
  unfold pyBitAnd at h
  repeat' split at h
  all_goals first
    | exact Except.noConfusion h
    | (injection h with h2; subst h2; rfl)

theorem pyBitOr_BF (a b v : Value) (h : pyBitOr a b = .ok v) : valueBF v = true := by
  unfold pyBitOr at h
  repeat' split at h
  all_goals first
    | exact Except.noConfusion h
    | (injection h with h2; subst h2; rfl)

theorem pyNeg_BF (a v : Value) (h : pyNeg a = .ok v) : valueBF v = true := by
  unfold pyNeg at h
  repeat' split at h
  all_goals first
    | exact Except.noConfusion h
    | (injection h with h2; subst h2; rfl)

theorem pyRange_BF (args : List Value) (v : Value) (h : pyRange args = .ok v) :
    valueBF v = true := by
  unfold pyRange at h
  repeat' split at h
  all_goals first
    | exact Except.noConfusion h
    | (injection h with h2; subst h2;
       exact (valueBFList_mem _).mpr (fun w hw => by
         simp at hw
         obtain ⟨i, _, rfl⟩ := hw
         rfl))

theorem astAttr_BF : ∀ (k : ℕ) (b : AstNode) (a s : String), sizeOf b ≤ k →
    astBF b = true → braceFreeStr a = true → astAttr b a = .ok s →
    braceFreeStr s = true := by
  intro k
  induction k using Nat.strong_induction_on with
  | _ k ih =>
    intro b a s hk hb ha hok
    match b with
    | .attribute v2 a2 =>
      simp only [astAttr] at hok
      cases hA : astAttr v2 a2 with
      | error e => rw [hA] at hok; exact Except.noConfusion hok
      | ok base =>
        rw [hA] at hok
        injection hok with h2
        subst h2
        have hb2 : astBF v2 = true ∧ braceFreeStr a2 = true := by
          simpa [astBF, Bool.and_eq_true] using hb
        have hlt : sizeOf v2 < k := by
          have : sizeOf (AstNode.attribute v2 a2) = 1 + sizeOf v2 + sizeOf a2 := by simp
          have hpos : 0 < sizeOf a2 := by cases a2; simp
          omega
        have hbase := ih (sizeOf v2) hlt v2 a2 base (le_refl _) hb2.1 hb2.2 hA
        rw [braceFreeStr_append, braceFreeStr_append]
        simp [hbase, ha]
        decide
    | .name id =>
      simp only [astAttr] at hok
      injection hok with h2
      subst h2
      rw [braceFreeStr_append, braceFreeStr_append]
      simp only [Bool.and_eq_true]
      refine ⟨⟨by simpa [astBF] using hb, by decide⟩, ha⟩
    | .num w => exact Except.noConfusion hok
    | .constant w => exact Except.noConfusion hok
    | .compare l o c => exact Except.noConfusion hok
    | .boolOp o vs => exact Except.noConfusion hok
    | .binOp l o r => exact Except.noConfusion hok
    | .unaryOp o oo => exact Except.noConfusion hok
    | .call fn fi ar hw => exact Except.noConfusion hok
    | .other t => exact Except.noConfusion hok

/-- Brace-freeness is preserved by the evaluator: on a brace-free AST, with
a brace-free experiment set, every successful evaluation yields a
brace-free value (joint with the boolean fold loop). -/
theorem evalBF_aux (env : ExpEnv) (henv : envBF env) : ∀ fuel : ℕ,
    (∀ (st : ExpState) (n : AstNode) (v : Value), astBF n = true →
      (evalMath fuel env st n).1 = .ok v → valueBF v = true) ∧
    (∀ (st : ExpState) (f : Value → Value → Except PyErr Value) (acc : Value)
      (l : List AstNode) (v : Value),
      (∀ a b w, f a b = .ok w → valueBF w = true) → valueBF acc = true →
      astBFList l = true → (evalBoolFold fuel env st f acc l).1 = .ok v →
      valueBF v = true) := by
  intro fuel
  induction fuel with
  | zero =>
    constructor
    · intro st n v _ hok
      exact Except.noConfusion hok
    · intro st f acc l v _ _ _ hok
      exact Except.noConfusion hok
  | succ fuel ih =>
    obtain ⟨ihM, ihB⟩ := ih
    constructor
    · intro st n v hbf hok
      match n with
      | .num w =>
        simp only [evalMath] at hok
        injection hok with h2
        subst h2
        simpa [astBF] using hbf
      | .constant w =>
        simp only [evalMath] at hok
        injection hok with h2
        subst h2
        simpa [astBF] using hbf
      | .name id =>
        simp only [evalMath] at hok
        injection hok with h2
        subst h2
        simpa [astBF, valueBF] using hbf
      | .attribute b a =>
        simp only [evalMath] at hok
        have hbf2 : astBF b = true ∧ braceFreeStr a = true := by
          simpa [astBF, Bool.and_eq_true] using hbf
        cases hA : astAttr b a with
        | error e => rw [hA] at hok; exact Except.noConfusion hok
        | ok s =>
          rw [hA] at hok
          injection hok with h2
          subst h2
          simpa [valueBF] using astAttr_BF (sizeOf b) b a s (le_refl _) hbf2.1 hbf2.2 hA
      | .other t =>
        simp only [evalMath] at hok
        exact Except.noConfusion hok
      | .compare left ops comps =>
        have hbf2 : astBF left = true ∧ astBFList comps = true := by
          simpa [astBF, Bool.and_eq_true] using hbf
        simp only [evalMath] at hok
        repeat' split at hok
        all_goals simp only [] at hok
        all_goals first
          | exact Except.noConfusion hok
          | (injection hok with h2; subst h2; rfl)
          | (injection hok with h2; subst h2; exact henv _ _)
      | .boolOp op values =>
        have hbfl : astBFList values = true := by simpa [astBF] using hbf
        cases op with
        | andOp =>
          simp only [evalMath] at hok
          match values with
          | [] => exact Except.noConfusion hok
          | v0 :: rest =>
            have hbf2 : astBF v0 = true ∧ astBFList rest = true := by
              simpa [astBFList, Bool.and_eq_true] using hbfl
            cases hr : (evalMath fuel env st v0).1 with
            | error e => simp only [hr] at hok; exact Except.noConfusion hok
            | ok acc =>
              simp only [hr] at hok
              cases hfr : (evalBoolFold fuel env (evalMath fuel env st v0).2
                  pyBitAnd acc rest).1 with
              | error e => simp only [hfr] at hok; exact Except.noConfusion hok
              | ok res =>
                simp only [hfr] at hok
                injection hok with h2
                subst h2
                exact ihB _ _ _ _ _ (fun a b w hw => pyBitAnd_BF a b w hw)
                  (ihM _ v0 acc hbf2.1 hr) hbf2.2 hfr
        | orOp =>
          simp only [evalMath] at hok
          match values with
          | [] => exact Except.noConfusion hok
          | v0 :: rest =>
            have hbf2 : astBF v0 = true ∧ astBFList rest = true := by
              simpa [astBFList, Bool.and_eq_true] using hbfl
            cases hr : (evalMath fuel env st v0).1 with
            | error e => simp only [hr] at hok; exact Except.noConfusion hok
            | ok acc =>
              simp only [hr] at hok
              cases hfr : (evalBoolFold fuel env (evalMath fuel env st v0).2
                  pyBitOr acc rest).1 with
              | error e => simp only [hfr] at hok; exact Except.noConfusion hok
              | ok res =>
                simp only [hfr] at hok
                injection hok with h2
                subst h2
                exact ihB _ _ _ _ _ (fun a b w hw => pyBitOr_BF a b w hw)
                  (ihM _ v0 acc hbf2.1 hr) hbf2.2 hfr
      | .binOp left op right =>
        have hbf2 : astBF left = true ∧ astBF right = true := by
          simpa [astBF, Bool.and_eq_true] using hbf
        cases op <;>
          (simp only [evalMath, binLookup] at hok
           cases hl : (evalMath fuel env st left).1 with
           | error e => simp only [hl] at hok; exact Except.noConfusion hok
           | ok lv =>
             simp only [hl] at hok
             cases hrr : (evalMath fuel env (evalMath fuel env st left).2 right).1 with
             | error e => simp only [hrr] at hok; exact Except.noConfusion hok
             | ok rv =>
               simp only [hrr] at hok
               repeat' split at hok
               all_goals first
                 | exact Except.noConfusion hok
                 | (injection hok with h2; subst h2;
                    first
                     | exact pyAdd_BF _ _ _ (ihM _ left lv hbf2.1 hl)
                         (ihM _ right rv hbf2.2 hrr) (by assumption)
                     | exact pySub_BF _ _ _ (by assumption)
                     | exact pyMul_BF _ _ _ (ihM _ left lv hbf2.1 hl)
                         (ihM _ right rv hbf2.2 hrr) (by assumption)
                     | exact pyDiv_BF _ _ _ (by assumption)
                     | exact pyPow_BF _ _ _ (by assumption)
                     | exact pyXor_BF _ _ _ (by assumption)))
      | .unaryOp op operand =>
        simp only [evalMath] at hok
        cases hr : (evalMath fuel env st operand).1 with
        | error e => simp only [hr] at hok; exact Except.noConfusion hok
        | ok w =>
          simp only [hr] at hok
          repeat' split at hok
          all_goals first
            | exact Except.noConfusion hok
            | (injection hok with h2; subst h2;
               first
                | rfl
                | exact pyNeg_BF _ _ (by assumption))
      | .call fin fid args hkw =>
        simp only [evalMath] at hok
        cases hr : (evalArgs fuel env st args).1 with
        | error e => simp only [hr] at hok; exact Except.noConfusion hok
        | ok argv =>
          simp only [hr] at hok
          repeat' split at hok
          all_goals first
            | exact Except.noConfusion hok
            | exact pyRange_BF _ _ hok
            | (injection hok with h2; subst h2; rfl)
    · intro st f acc l v hf hacc hbfl hok
      match l with
      | [] =>
        simp only [evalBoolFold] at hok
        injection hok with h2
        subst h2
        exact hacc
      | nd :: rest =>
        have hbf2 : astBF nd = true ∧ astBFList rest = true := by
          simpa [astBFList, Bool.and_eq_true] using hbfl
        simp only [evalBoolFold] at hok
        cases hr : (evalMath fuel env st nd).1 with
        | error e => simp only [hr] at hok; exact Except.noConfusion hok
        | ok rv =>
          simp only [hr] at hok
          cases hfa : f acc rv with
          | error e => simp only [hfa] at hok; exact Except.noConfusion hok
          | ok acc2 =>
            simp only [hfa] at hok
            exact ihB _ _ _ _ _ hf (hf _ _ _ hfa) hbf2.2 hok

theorem partExpand_vStr_shape (env : ExpEnv) (selfSt : ExpState) (fuel : ℕ)
    (expVars : List (String × Value)) (s : String) (ap : Bool) (v : Value)
    (h : partExpand env selfSt fuel expVars (.vStr s) ap = .ok v) :
    ∃ t, v = .vStr t := by
  match fuel with
  | 0 => exact Except.noConfusion h
  | fuel + 1 =>
    simp only [partExpand] at h
    repeat' split at h
    all_goals first
      | exact Except.noConfusion h
      | (injection h with h2; subst h2; exact ⟨_, rfl⟩)

theorem ws_nonBrace (c : Char) (h : c.isWhitespace = true) : nonBrace c = true := by
  simp [Char.isWhitespace] at h
  rcases h with ((rfl | rfl) | rfl) | rfl <;> rfl

theorem scanFmt_dropWhile_ws (t : List Char) :
    ∀ frags : List Frag, scanFmt t = .ok frags → fragKeywords frags = [] →
    ∃ frags2, scanFmt (t.dropWhile Char.isWhitespace) = .ok frags2 ∧
      fragKeywords frags2 = [] := by
  induction t with
  | nil => intro frags h hkw; exact ⟨frags, h, hkw⟩
  | cons c rest ih =>
    intro frags h hkw
    by_cases hc : c.isWhitespace
    · rw [List.dropWhile_cons, if_pos hc]
      rw [scanFmt_cons_nonBrace c rest (ws_nonBrace c hc)] at h
      cases hr : scanFmt rest with
      | error e => rw [hr] at h; exact Except.noConfusion h
      | ok fs =>
        rw [hr] at h
        injection h with h2
        subst h2
        exact ih fs hr (by simpa [fragKeywords] using hkw)
    · rw [List.dropWhile_cons, if_neg hc]
      exact ⟨frags, h, hkw⟩

theorem lstrip_braceFree (s : String) (h : braceFreeStr s = true) :
    braceFreeStr (lstrip s) = true := by
  refine List.all_eq_true.mpr fun c hc => ?_
  exact List.all_eq_true.mp h c ((List.dropWhile_sublist _).subset hc)

theorem fullyExpandedV_lstrip (t : String)
    (h : fullyExpandedV (.vStr t) = .ok true) :
    fullyExpandedV (.vStr (lstrip t)) = .ok true := by
  simp only [fullyExpandedV] at h ⊢
  cases hs : scanFmt t.data with
  | error e => rw [hs] at h; exact Except.noConfusion h
  | ok frags =>
    rw [hs] at h
    have hkw : fragKeywords frags = [] := by
      simp only [Except.map] at h
      injection h with h2
      exact List.isEmpty_iff.mp h2
    obtain ⟨frags2, h2, hk2⟩ := scanFmt_dropWhile_ws t.data frags hs hkw
    show Except.map _ (scanFmt (t.data.dropWhile Char.isWhitespace)) = .ok true
    rw [h2]
    simp [Except.map, hk2]

/-- C5 (amended): with `allow_passthrough=False`, whenever `expand_var`
returns a string at all, that string is fully expanded in the code's own
sense (`_fully_expanded` holds of it) — provided the host parser only
produces brace-free ASTs on the strings it accepts and the experiment set
only stores brace-free values.  Failure modes are not limited to
`ExpanderError`: a malformed template raises the host `ValueError` (see the
counterexample), and raw evaluator errors (`TypeError`,
`ZeroDivisionError`, `AttributeError`, `RambleSyntaxError`) propagate. -/
theorem c5_no_passthrough_fully_expands (env : ExpEnv) (fuel : ℕ)
    (selfVars : List (String × Value)) (extraVars : Option (List (String × Value)))
    (var : Value) (s : String)
    (hAst : envAstBF env) (hGet : envBF env)
    (h : expandVar env fuel selfVars extraVars var false = .ok s) :
    fullyExpandedV (.vStr s) = .ok true := by
  unfold expandVar at h
  split at h
  · exact absurd h (by simp)
  · rename_i expanded hpe
    obtain ⟨t, rfl⟩ := partExpand_vStr_shape _ _ _ _ _ _ _ hpe
    split at h
    · exact absurd h (by simp)
    · rename_i hfe
      split at h
      · injection h with h2
        subst h2
        exact fullyExpandedV_lstrip t hfe
      · rename_i node hparse
        split at h
        · rename_i ev heval
          injection h with h2
          subst h2
          have hb : valueBF ev = true :=
            (evalBF_aux env hGet fuel).1 _ node ev (hAst _ node hparse) heval
          exact fullyExpandedV_braceFree _ (lstrip_braceFree _ (pyStr_braceFree ev hb))
        · injection h with h2
          subst h2
          exact fullyExpandedV_lstrip t hfe
        · injection h with h2
          subst h2
          exact fullyExpandedV_lstrip t hfe
        · exact absurd h (by simp)
    · split at h
      · exact absurd h (by simp)
      · rename_i hcond
        simp at hcond

/-- C5 counterexample to the claim as stated: on the malformed template
`"}"` with passthrough disallowed, `expand_var` raises the host
`ValueError` (from `string.Formatter().parse`), which is not an
`ExpanderError` and names no missing variable. -/
theorem c5_counterexample :
    expandVar envEmpty 5 [] none (.vStr "\x7d") false = .error .valueError ∧
    PyErr.isExpanderErr .valueError = false :=
  ⟨rfl, rfl⟩

/-- Witness for `c5_no_passthrough_fully_expands` on a concrete run:
`"{x}"` with `x = "1"` expands to `"1"`, which is fully expanded. -/
theorem c5_witness :
    envAstBF envEmpty ∧ envBF envEmpty ∧
    expandVar envEmpty 5 [("x", .vStr "1")] none (.vStr "\x7bx\x7d") false = .ok "1" ∧
    fullyExpandedV (.vStr "1") = .ok true :=
  ⟨fun _ _ h => Except.noConfusion h, fun _ _ => rfl, rfl,
   c5_no_passthrough_fully_expands envEmpty 5 [("x", .vStr "1")] none
     (.vStr "\x7bx\x7d") "1" (fun _ _ h => Except.noConfusion h) (fun _ _ => rfl) rfl⟩

theorem order_allowed (o : Option String)
    (h : (match o with
          | some s => !(["after_chain", "after_root", "before_chain", "before_root"].contains s)
          | none => false) = false) :
    o.getD "after_root" = "before_chain" ∨ o.getD "after_root" = "before_root" ∨
    o.getD "after_root" = "after_root" ∨ o.getD "after_root" = "after_chain" := by
  match o with
  | none => simp
  | some s =>
    simp only [Option.getD]
    by_cases ha : s = "after_chain"
    · exact Or.inr (Or.inr (Or.inr ha))
    by_cases hb : s = "after_root"
    · exact Or.inr (Or.inr (Or.inl hb))
    by_cases hc : s = "before_chain"
    · exact Or.inl hc
    by_cases hd : s = "before_root"
    · exact Or.inr (Or.inl hd)
    exfalso
    simp [ha, hb, hc, hd] at h

theorem chainStep_inv (env : ChainEnv) (parentNs : String) (st st2 : ChainState)
    (hinv : chainInv st) (h : chainStep env parentNs st = .ok st2) : chainInv st2 := by
  obtain ⟨h1, h2, h3⟩ := hinv
  unfold chainStep at h
  dsimp only at h
  split at h
  · injection h with heq
    subst heq
    exact ⟨h1, h2, h3⟩
  · split at h
    · exact Except.noConfusion h
    split at h
    · exact Except.noConfusion h
    rename_i hordvalid
    split at h
    · exact Except.noConfusion h
    split at h
    · -- second visit: a completion happens
      rename_i curName curDef _ _ _ _
      have hord := order_allowed curDef.order (by simpa using hordvalid)
      split at h
      all_goals injection h with heq
      all_goals subst heq
      all_goals refine ⟨?_, ?_, ?_⟩
      any_goals (
        intro p hp
        rcases List.mem_append.mp hp with hp2 | hp2
        · exact h3 p hp2
        · simp at hp2
          subst hp2
          rcases hord with ho | ho | ho | ho <;> simp [ho])
      all_goals (
        rcases hord with ho | ho | ho | ho <;>
          simp [ho, h1, h2, List.filter_append, List.map_append, List.reverse_append])
    · -- first visit: lists and completions unchanged
      split at h
      · exact Except.noConfusion h
      · split at h
        · exact Except.noConfusion h
        · injection h with heq
          subst heq
          exact ⟨h1, h2, h3⟩

theorem chainLoop_inv (env : ChainEnv) (parentNs : String) :
    ∀ (fuel : ℕ) (st st2 : ChainState), chainInv st →
    chainLoop env parentNs fuel st = .ok st2 → chainInv st2 := by
  intro fuel
  induction fuel with
  | zero => intro st st2 _ h; exact Except.noConfusion h
  | succ f ih =>
    intro st st2 hinv h
    simp only [chainLoop] at h
    split at h
    · injection h with heq; subst heq; exact hinv
    · cases hs : chainStep env parentNs st with
      | error e => rw [hs] at h; exact Except.noConfusion h
      | ok stm =>
        rw [hs] at h
        exact ih stm st2 (chainStep_inv env parentNs st stm hinv hs) h

/-- C4 (amended): for every chain run that completes without error,
`chain_order = chain_prepend ++ [root namespace] ++ chain_append`;
`chain_prepend` consists of the `before_chain` completions in *reverse*
completion order followed by the `before_root` completions in completion
order, and `chain_append` of the `after_root` completions in *reverse*
completion order followed by the `after_chain` completions in completion
order (each `before_chain`/`after_root` entry is inserted at position 0,
each `before_root`/`after_chain` appended); every recorded order keyword
is one of the four allowed; and the final `chain_order` is copied
verbatim to every registered chained child. -/
theorem c4_chain_order (env : ChainEnv) (parentNs : String) (rootId : InstId)
    (entries : List ChainEntry) (isTemplate : Bool) (fuel : ℕ) (res : ChainResult)
    (h : createExperimentChain env parentNs rootId entries isTemplate fuel =
      .ok (some res)) :
    res.chainOrder = res.chainPrepend ++ [parentNs] ++ res.chainAppend ∧
    res.chainPrepend =
      ((res.completions.filter (fun p => p.2 == "before_chain")).map Prod.fst).reverse ++
      (res.completions.filter (fun p => p.2 == "before_root")).map Prod.fst ∧
    res.chainAppend =
      ((res.completions.filter (fun p => p.2 == "after_root")).map Prod.fst).reverse ++
      (res.completions.filter (fun p => p.2 == "after_chain")).map Prod.fst ∧
    (∀ p ∈ res.completions, p.2 = "before_chain" ∨ p.2 = "before_root" ∨
      p.2 = "after_root" ∨ p.2 = "after_chain") ∧
    (∀ q ∈ res.childOrders, q.2 = res.chainOrder) := by
  unfold createExperimentChain at h
  split at h
  · exact absurd h (by simp)
  · split at h
    · exact Except.noConfusion h
    · split at h
      · exact Except.noConfusion h
      · rename_i stF hloop
        have hinv : chainInv stF := by
          refine chainLoop_inv env parentNs fuel _ stF ?_ hloop
          exact ⟨by simp, by simp, by simp⟩
        injection h with heq
        injection heq with heq2
        subst heq2
        obtain ⟨h1, h2, h3⟩ := hinv
        refine ⟨rfl, h1, h2, h3, ?_⟩
        intro q hq
        simp at hq
        rcases hq with ⟨nm, ⟨_, _⟩, hq2⟩ | ⟨nm, ⟨_, _⟩, hq2⟩ <;>
          (rw [← hq2]; simp)

/-- C4 counterexample to the claim as stated: two chain entries both with
`order = after_root`, discovered in the order `c1` then `c2` (so `c1`
completes first with chain index 0).  `after_root` children are inserted
at position 0 of `chain_append`, so the later-discovered `c2` child comes
directly after the root and the earlier-discovered `c1` child last —
reverse discovery order, contradicting "ties broken by discovery
order". -/
theorem c4_counterexample :
    (createExperimentChain envC4 "p" 0
      [⟨some "c1", some "cmdA", some "after_root", none⟩,
       ⟨some "c2", some "cmdB", some "after_root", none⟩] false 20).map
      (fun o => o.map (fun r => r.chainOrder)) =
    .ok (some ["p", "p.chain.1.c2", "p.chain.0.c1"]) := rfl

/-- Witness for `c4_chain_order` on a concrete run with one `before_root`
and one `after_root` entry (the spec scenario shape): the chain order is
`[child-before, root, child-after]`. -/
theorem c4_witness :
    createExperimentChain envC4 "p" 0
      [⟨some "c1", some "cmdA", some "before_root", none⟩,
       ⟨some "c2", some "cmdB", some "after_root", none⟩] false 20 =
      .ok (some resC4) ∧
    resC4.chainOrder = resC4.chainPrepend ++ ["p"] ++ resC4.chainAppend :=
  ⟨rfl,
   (c4_chain_order envC4 "p" 0
     [⟨some "c1", some "cmdA", some "before_root", none⟩,
      ⟨some "c2", some "cmdB", some "after_root", none⟩] false 20 resC4 rfl).1⟩

theorem mem_setInsert (acc : List String) (r l : String) :
    l ∈ setInsert acc r ↔ l ∈ acc ∨ l = r := by
  unfold setInsert
  split
  · rename_i h
    have hr : r ∈ acc := by
      have := List.mem_of_elem_eq_true h
      exact this
    constructor
    · exact Or.inl
    · rintro (h2 | rfl)
      · exact h2
      · exact hr
  · simp

theorem setInsert_nodup (acc : List String) (r : String) (h : acc.Nodup) :
    (setInsert acc r).Nodup := by
  unfold setInsert
  split
  · exact h
  · rename_i hc
    have hr : r ∉ acc := fun hm => hc (List.elem_eq_true_of_mem hm)
    simp [List.nodup_append, h, hr]

theorem collectLogs_spec (env : InjectEnv) :
    ∀ (exes acc logs : List String), acc.Nodup →
      collectLogs env exes acc = .ok logs →
      logs.Nodup ∧ ∀ l, (l ∈ logs ↔ l ∈ acc ∨ logPred env exes l) := by
  intro exes
  induction exes with
  | nil =>
    intro acc logs hnd h
    injection h with h2
    subst h2
    refine ⟨hnd, fun l => ?_⟩
    simp [logPred]
  | cons exe rest ih =>
    intro acc logs hnd h
    unfold collectLogs at h
    split at h
    · rename_i hcond
      simp only [Bool.and_eq_true, Bool.not_eq_eq_eq_not, Bool.not_true] at hcond
      split at h
      · exact Except.noConfusion h
      · rename_i conf hconf
        split at h
        · rename_i hred
          have hredne : conf.redirect ≠ "" := by simpa using hred
          obtain ⟨hnd2, hmem⟩ := ih (setInsert acc conf.redirect) logs
            (setInsert_nodup _ _ hnd) h
          refine ⟨hnd2, fun l => ?_⟩
          rw [hmem l, mem_setInsert]
          have hpe : (containsSub exe "builtin::" = false ∧
              containsSub exe "modifier_builtin::" = false ∧
              ∃ c, dictGet env.execsMap exe = some c ∧
                c.redirect = l ∧ c.redirect ≠ "") ↔ l = conf.redirect := by
            constructor
            · rintro ⟨_, _, c, hc, hl, _⟩
              rw [hconf] at hc
              injection hc with he
              subst he
              exact hl.symm
            · rintro rfl
              exact ⟨hcond.1, hcond.2, conf, hconf, rfl, hredne⟩
          simp only [logPred, List.exists_mem_cons_iff, hpe]
          rw [or_assoc]
        · rename_i hred
          have hredeq : conf.redirect = "" := by
            by_contra hne
            simp [hne] at hred
          obtain ⟨hnd2, hmem⟩ := ih acc logs hnd h
          refine ⟨hnd2, fun l => ?_⟩
          rw [hmem l]
          have hpe : (containsSub exe "builtin::" = false ∧
              containsSub exe "modifier_builtin::" = false ∧
              ∃ c, dictGet env.execsMap exe = some c ∧
                c.redirect = l ∧ c.redirect ≠ "") ↔ False := by
            constructor
            · rintro ⟨_, _, c, hc, _, hne⟩
              rw [hconf] at hc
              injection hc with he
              subst he
              exact hne hredeq
            · exact False.elim
          simp only [logPred, List.exists_mem_cons_iff, hpe, false_or]
    · rename_i hcond
      simp only [Bool.and_eq_true, Bool.not_eq_eq_eq_not, Bool.not_true, not_and_or] at hcond
      obtain ⟨hnd2, hmem⟩ := ih acc logs hnd h
      refine ⟨hnd2, fun l => ?_⟩
      rw [hmem l]
      have hpe : (containsSub exe "builtin::" = false ∧
          containsSub exe "modifier_builtin::" = false ∧
          ∃ c, dictGet env.execsMap exe = some c ∧
            c.redirect = l ∧ c.redirect ≠ "") ↔ False := by
        constructor
        · rintro ⟨h1, h2, _⟩
          rcases hcond with hc | hc
          · rw [h1] at hc
            exact absurd hc (by simp)
          · rw [h2] at hc
            exact absurd hc (by simp)
        · exact False.elim
      simp only [logPred, List.exists_mem_cons_iff, hpe, false_or]

/-- C6: when `_inject_commands` succeeds, the emitted command list is
exactly chain-prepend commands, then the purge pairs, then every
executable's own commands, then chain-append commands; the purged logs
are exactly the distinct truthy redirects of the executables whose names
contain neither `builtin::` nor `modifier_builtin::` as a substring
(`re.search`, not a prefix match), each appearing once, so each such log
gets exactly one `rm -f`/`touch` pair, after the chain-prepend commands
and before every executable's commands. -/
theorem c6_log_purge (env : InjectEnv) (chainPrepend chainAppend : List String)
    (chainCommands : List (String × String)) (executables : List String)
    (cmds logs : List String)
    (hrun : injectCommands env chainPrepend chainAppend chainCommands executables
      = .ok cmds)
    (hlogs : collectLogs env executables [] = .ok logs) :
    logsSpec env executables logs ∧
    ∃ pcmds bodies acmds,
      chainCmdsLookup chainCommands chainPrepend = .ok pcmds ∧
      execCommandsAll env executables = .ok bodies ∧
      chainCmdsLookup chainCommands chainAppend = .ok acmds ∧
      cmds = pcmds ++ logs.flatMap purgePair ++ bodies ++ acmds := by
  obtain ⟨hnd, hmem⟩ := collectLogs_spec env executables [] logs List.nodup_nil hlogs
  refine ⟨⟨hnd, fun l => by rw [hmem l]; simp⟩, ?_⟩
  unfold injectCommands at hrun
  rcases hp1 : chainCmdsLookup chainCommands chainPrepend with e | pcmds
  · rw [hp1] at hrun
    exact Except.noConfusion hrun
  · rw [hp1, hlogs] at hrun
    rcases hb : execCommandsAll env executables with e | bodies
    · rw [hb] at hrun
      exact Except.noConfusion hrun
    · rw [hb] at hrun
      rcases ha : chainCmdsLookup chainCommands chainAppend with e | acmds
      · rw [ha] at hrun
        exact Except.noConfusion hrun
      · rw [ha] at hrun
        injection hrun with hc
        exact ⟨pcmds, bodies, acmds, rfl, rfl, rfl, hc.symm⟩

/-- C6 counterexample: the executable `my_builtin::x` is non-builtin (its
name does not start with `builtin::` or `modifier_builtin::`, so the main
loop treats it as a directive executable and emits its redirect `log`),
yet the log-purge loop skips it because `builtin_regex.search` finds
`builtin::` as a mere substring of the name: the emitted command list
carries no `rm -f "log"`/`touch "log"` pair at all, refuting "exactly one
pair per distinct redirect target of a non-builtin executable". -/
theorem c6_counterexample :
    injectCommands envC6 [] [] [] ["my_builtin::x"] = .ok ["run > \"log\""] ∧
    strStartsWith "my_builtin::x" "builtin::" = false ∧
    strStartsWith "my_builtin::x" "modifier_builtin::" = false ∧
    dictGet envC6.execsMap "my_builtin::x"
      = some (CommandExecutable.mk ["run"] false "log" ">") ∧
    "rm -f \"log\"" ∉ ["run > \"log\""] ∧
    "touch \"log\"" ∉ ["run > \"log\""] := by
  refine ⟨rfl, rfl, rfl, rfl, ?_, ?_⟩ <;> decide

/-- C6 witness: a run with one chain-prepend command, one ordinary
executable `bar` redirecting to `logA`, and one chain-append command
emits exactly `[cmdA, rm -f "logA", touch "logA", barcmd > "logA", cmdB]`,
instantiating the C6 theorem. -/
theorem c6_witness :
    logsSpec envC6 ["bar"] ["logA"] ∧
    ∃ pcmds bodies acmds,
      chainCmdsLookup [("p.c1", "cmdA"), ("p.c2", "cmdB")] ["p.c1"] = .ok pcmds ∧
      execCommandsAll envC6 ["bar"] = .ok bodies ∧
      chainCmdsLookup [("p.c1", "cmdA"), ("p.c2", "cmdB")] ["p.c2"] = .ok acmds ∧
      ["cmdA", "rm -f \"logA\"", "touch \"logA\"", "barcmd > \"logA\"", "cmdB"]
        = pcmds ++ (["logA"].flatMap purgePair) ++ bodies ++ acmds :=
  c6_log_purge envC6 ["p.c1"] ["p.c2"] [("p.c1", "cmdA"), ("p.c2", "cmdB")] ["bar"]
    ["cmdA", "rm -f \"logA\"", "touch \"logA\"", "barcmd > \"logA\"", "cmdB"]
    ["logA"] rfl rfl

/-- C3: the emitted result document carries the experiment namespace and
chain, its status is `SUCCESS` exactly when the `fom_values` table is
non-empty and every registered criterion's found flag is set after the
non-file pass, the status is always one of `SUCCESS`/`FAILED`, and the
`CONTEXTS` table is present exactly on success or with "always print
FOMs".  (A non-empty `fom_values` does not mean a FOM was captured: a
matching context inserts an empty entry.) -/
theorem c3_status (env : AnalyzeEnv) (res : ResultsDoc) (found : List String)
    (fv : FomTable)
    (hfiles : procFiles env env.files ([], []) = .ok (found, fv))
    (hrun : analyzeExperiments env = .ok res) :
    res.name = env.experimentNamespace ∧
    res.experimentChain = env.chainOrder ∧
    ((res.rambleStatus = "SUCCESS") ↔
      (fv ≠ [] ∧
        criteriaListPassed env.criteria (procNonFile fv env.criteria found) = true)) ∧
    (res.rambleStatus = "SUCCESS" ∨ res.rambleStatus = "FAILED") ∧
    (res.contexts.isSome ↔
      (res.rambleStatus = "SUCCESS" ∨ env.alwaysPrintFoms = true)) := by
  unfold analyzeExperiments at hrun
  rw [hfiles] at hrun
  dsimp only at hrun
  injection hrun with h
  subst h
  cases hb : (!(fv.isEmpty) &&
      criteriaListPassed env.criteria (procNonFile fv env.criteria found)) with
  | true =>
    have h12 := hb
    simp only [Bool.and_eq_true] at h12
    obtain ⟨h1, h2⟩ := h12
    have hne : fv ≠ [] := by
      intro h
      subst h
      simp at h1
    refine ⟨rfl, rfl, ?_, Or.inl rfl, ?_⟩
    · constructor
      · intro _
        exact ⟨hne, h2⟩
      · intro _
        rfl
    · constructor
      · intro _
        exact Or.inl rfl
      · intro _
        rfl
  | false =>
    refine ⟨rfl, rfl, ?_, Or.inr rfl, ?_⟩
    · constructor
      · intro h
        exact absurd (show ("FAILED" : String) = "SUCCESS" from h) (by decide)
      · rintro ⟨hne, hp⟩
        have h1 : fv.isEmpty = false := by
          cases fv
          · exact absurd rfl hne
          · rfl
        rw [h1, hp] at hb
        exact absurd hb (by decide)
    · cases ha : env.alwaysPrintFoms
      · constructor
        · intro h
          exact Bool.noConfusion (show false = true from h)
        · rintro (h | h)
          · exact absurd (show ("FAILED" : String) = "SUCCESS" from h) (by decide)
          · exact Bool.noConfusion h
      · constructor
        · intro _
          exact Or.inr rfl
        · intro _
          rfl

/-- C3 counterexample: with a context regex matching a log line but NO
figure-of-merit definitions at all, `fom_values` gains an empty entry for
the context display name, so the experiment is reported `SUCCESS` even
though no figure of merit was captured (every per-context FOM map in the
emitted `CONTEXTS` is empty): `RAMBLE_STATUS == 'SUCCESS'` is not
equivalent to "at least one figure of merit was captured". -/
theorem c3_counterexample :
    analyzeExperiments envC3 = .ok resC3 ∧
    resC3.rambleStatus = "SUCCESS" ∧
    envC3.foms = [] ∧
    resC3.contexts = some [("iter = 3", [])] ∧
    ∀ p ∈ ([("iter = 3", ([] : List (String × FomVal)))] : FomTable), p.2 = [] := by
  refine ⟨rfl, rfl, rfl, rfl, ?_⟩
  intro p hp
  rw [List.mem_singleton] at hp
  subst hp
  rfl

/-- C3 witness: the status characterization instantiated on the concrete
`envC3` run, whose file loop produces the table `[("iter = 3", [])]` and
no found criteria. -/
theorem c3_witness :
    resC3.name = envC3.experimentNamespace ∧
    resC3.experimentChain = envC3.chainOrder ∧
    ((resC3.rambleStatus = "SUCCESS") ↔
      (([("iter = 3", [])] : FomTable) ≠ [] ∧
        criteriaListPassed envC3.criteria
          (procNonFile [("iter = 3", [])] envC3.criteria []) = true)) ∧
    (resC3.rambleStatus = "SUCCESS" ∨ resC3.rambleStatus = "FAILED") ∧
    (resC3.contexts.isSome ↔
      (resC3.rambleStatus = "SUCCESS" ∨ envC3.alwaysPrintFoms = true)) :=
  c3_status envC3 resC3 [] [("iter = 3", [])] rfl rfl

end Ramble
